import Mathlib

/-!
# Verification of the storage-and-concurrency core (buffer pool, LRU-K, B+ tree, lock manager)

Shallow embedding of the C++ sources of the storage engine:

* `src/storage/page/b_plus_tree_leaf_page.cpp` / `.h`  — leaf pages
* `src/storage/page/b_plus_tree_internal_page.cpp` / `.h` — internal pages
* `src/storage/index/b_plus_tree.cpp` / `.h` — the B+ tree operations
* `src/buffer/lru_k_replacer.cpp` — the LRU-K replacer
* `src/buffer/buffer_pool_manager.cpp` — the buffer pool manager
* `src/storage/page/page_guard.cpp` — page guards
* `src/concurrency/lock_manager.cpp` / `.h` — the lock manager

Conventions used throughout:

* keys (`GenericKey` compared with `GenericComparator` over a signed integer
  column) are modelled as `Int`; the zero-initialized `KeyType\x7b\x7d` is `0`;
* record ids (`RID`) are modelled as `Nat`; `page_id_t` is `Int` with
  `INVALID_PAGE_ID = -1`;
* a page's flexible array member `array_[0]` is modelled as a total function
  `Nat → entry`; cells at indices `≥ size` hold whatever was last written there
  (zeroed for a fresh frame), exactly like the bytes past the logical end of a
  C++ page;
* `BUSTUB_ENSURE` (always-on, throws `std::logic_error`) and `BUSTUB_ASSERT`
  (active in debug builds) are modelled as `Except` failures that propagate;
* `std::upper_bound` / `std::lower_bound` over `array_ .. array_ + size` are
  modelled as the least index below `size` satisfying the corresponding
  comparison, and `size` when none does.
-/

namespace BusTub

/-- Failure conditions of the embedded code: `BUSTUB_ASSERT` / `BUSTUB_ENSURE`
violations, a null-pointer dereference, an out-of-bounds write, a thrown
`std::out_of_range` from `unordered_map::at`, reinterpreting a page as the
wrong page type, and a thrown `std::runtime_error` (replacer bounds and
unknown-frame checks). -/
inductive Crash where
  | assertFail : Crash
  | ensureFail : Crash
  | nullDeref : Crash
  | oobWrite : Crash
  | atOutOfRange : Crash
  | typeConfusion : Crash
  | runtimeErr : Crash
  | outOfFuel : Crash
  deriving Repr, DecidableEq

/-- INVALID_PAGE_ID from common/config.h. -/
def INVALID_PAGE_ID : Int := -1

/-- A key/record-id entry of a leaf page (`MappingType` of the leaf). -/
abbrev LeafEntry := Int × Nat

/-- The zero-initialized leaf entry `std::make_pair(KeyType\x7b\x7d, ValueType\x7b\x7d)`. -/
def leafZero : LeafEntry := (0, 0)

/-- A key/child-page-id entry of an internal page (`MappingType` of the internal
page, whose `ValueType` is `page_id_t`). -/
abbrev InternalEntry := Int × Int

/-- The zero-initialized internal entry. -/
def internalZero : InternalEntry := (0, 0)

/-- `BPlusTreeLeafPage`: header fields `size_`, `max_size_`, `next_page_id_` and
the flexible array member `array_`, modelled as a total function so that the
bytes past the logical end (`cells i` for `i ≥ size`) are part of the state. -/
structure LeafPage where
  cells : Nat → LeafEntry
  size : Nat
  maxSize : Nat
  nextPageId : Int

/-- `BPlusTreeInternalPage`: header fields and the flexible array member. -/
structure InternalPage where
  cells : Nat → InternalEntry
  size : Nat
  maxSize : Nat

/-- Leaf `GetMinSize()`. The base-class implementation is not under `src/`;
modelled from the spec: leaf size ranges over `[⌈(max−1)/2⌉, max−1]`, so the
minimum is `⌈(max−1)/2⌉ = ⌊max/2⌋`. This agrees with the `BUSTUB_ENSURE` in
`BPlusTreeLeafPage::Split`, which moves `⌈max/2⌉` of `max` entries away and
then checks `GetSize() >= GetMinSize()`. -/
def LeafPage.minSize (p : LeafPage) : Nat := p.maxSize / 2

/-- Internal `GetMinSize()`. Modelled from the spec: internal size ranges over
`[⌈max/2⌉, max]`, so the minimum is `⌈max/2⌉`. This agrees with the
`BUSTUB_ASSERT` after `SplitInternalPage`, which leaves `⌊(max+1)/2⌋ = ⌈max/2⌉`
entries in the split page and checks `GetSize() >= GetMinSize()`. -/
def InternalPage.minSize (p : InternalPage) : Nat := (p.maxSize + 1) / 2

/-- First index `i < size` with `¬ (cells i).1 < k` (that is, `(cells i).1 ≥ k`),
and `size` if none: `std::lower_bound(array_, array_ + size, pair(k, _), cmp)`
with `cmp` comparing keys with the comparator. -/
def lowerBoundIdx (cells : Nat → Int × α) (size : Nat) (k : Int) : Nat :=
  (List.range size).find? (fun i => k ≤ (cells i).1) |>.getD size

/-- First index `i < size` with `k < (cells i).1`, and `size` if none:
`std::upper_bound(array_, array_ + size, pair(k, _), cmp)`. -/
def upperBoundIdx (cells : Nat → Int × α) (size : Nat) (k : Int) : Nat :=
  (List.range size).find? (fun i => k < (cells i).1) |>.getD size

/-- The shift-down loop shared by `DeleteKeytAt`, leaf `Remove` and internal
`Remove`: for `i` from `index` while `i < size − 1` do `array_[i] = array_[i+1]`,
then `array_[size−1] = zero`. -/
def eraseShift (zero : α) (cells : Nat → α) (index size : Nat) : Nat → α :=
  fun j =>
    if index ≤ j ∧ j + 1 < size then cells (j + 1)
    else if j + 1 = size then zero
    else cells j

/-- The shift-up loop of the insert routines: for `i` from `size` down while
`i > index` do `array_[i] = array_[i−1]`, then `array_[index] = e`. -/
def insertShift (cells : Nat → α) (index size : Nat) (e : α) : Nat → α :=
  fun j =>
    if j = index then e
    else if index < j ∧ j ≤ size then cells (j - 1)
    else cells j

/-- `BPlusTreeLeafPage::Init(max_size)` on a freshly allocated (zeroed) frame. -/
def LeafPage.init (maxSize : Nat) : LeafPage :=
  { cells := fun _ => leafZero, size := 0, maxSize := maxSize,
    nextPageId := INVALID_PAGE_ID }

/-- The duplicate-check loop at the head of `BPlusTreeLeafPage::Insert`:
for each `i < size`, first `BUSTUB_ASSERT` pairwise sortedness at `(i, i+1)`
(when `i < size − 1`), then return `false` if `array_[i].first == key`.
Returns `some true` when a duplicate is found, `some false` when the scan
completes, and crashes on the sortedness assert. -/
def leafDupScan (p : LeafPage) (k : Int) : Nat → Except Crash Bool
  | 0 => .ok false
  | n + 1 =>
    let i := p.size - (n + 1)
    if i + 1 < p.size ∧ ¬ (p.cells i).1 < (p.cells (i + 1)).1 then .error .assertFail
    else if (p.cells i).1 = k then .ok true
    else leafDupScan p k n

/-- `BPlusTreeLeafPage::Insert(comparator, key, value)`. -/
def LeafPage.insert (p : LeafPage) (k : Int) (v : Nat) :
    Except Crash (Bool × LeafPage) := do
  if ¬ p.size ≤ p.maxSize then .error .assertFail
  else do
    let dup ← leafDupScan p k p.size
    if dup then .ok (false, p)
    else
      let index := upperBoundIdx p.cells p.size k
      .ok (true, { p with cells := insertShift p.cells index p.size (k, v),
                          size := p.size + 1 })

/-- `BPlusTreeLeafPage::Remove(comparator, key)`. The lower-bound index may be
`size` (all stored keys `< key`); the code then compares `array_[index].first`
— a cell past the logical end — against the key with no bounds check. When
that junk cell matches and `size = 0`, the final write `array_[size - 1] = ...`
is out of bounds (`array_[-1]`). -/
def LeafPage.remove (p : LeafPage) (k : Int) : Except Crash (Bool × LeafPage) :=
  let index := lowerBoundIdx p.cells p.size k
  if ¬ (p.cells index).1 = k then .ok (false, p)
  else if p.size = 0 then .error .oobWrite
  else .ok (true, { p with cells := eraseShift leafZero p.cells index p.size,
                           size := p.size - 1 })

/-- `BPlusTreeLeafPage::GetValue(comparator, key, result)`: early `false` on an
empty page, otherwise lower-bound and compare the cell at the resulting index
(which is past the logical end when every stored key is `< key`). Returns the
flag together with the values pushed into `result`. -/
def LeafPage.getValue (p : LeafPage) (k : Int) : Bool × List Nat :=
  if p.size = 0 then (false, [])
  else
    let index := lowerBoundIdx p.cells p.size k
    if (p.cells index).1 = k then (true, [(p.cells index).2])
    else (false, [])

/-- Private `BPlusTreeLeafPage::DeleteKeytAt(position)`. -/
def LeafPage.deleteKeyAt (p : LeafPage) (position : Nat) : LeafPage :=
  { p with cells := eraseShift leafZero p.cells position p.size,
           size := p.size - 1 }

/-- The move loop of `BPlusTreeLeafPage::Split`: `num` times, insert the last
entry of the old page into the new page and delete it from the old page. -/
def leafSplitLoop : Nat → LeafPage → LeafPage → Except Crash (LeafPage × LeafPage)
  | 0, old, nw => .ok (old, nw)
  | n + 1, old, nw => do
    let index := old.size - 1
    let (_, nw') ← nw.insert (old.cells index).1 (old.cells index).2
    leafSplitLoop n (old.deleteKeyAt index) nw'

/-- `BPlusTreeLeafPage::Split(comparator, page)`: move the upper `⌈max/2⌉`
entries of `old` (which must be full) into the empty page `nw`; the first key
of `nw` propagates to the parent. Returns `(propagated key, old, nw)`. -/
def LeafPage.split (old nw : LeafPage) : Except Crash (Int × LeafPage × LeafPage) := do
  if ¬ nw.size = 0 then .error .ensureFail
  else if ¬ old.size = old.maxSize then .error .ensureFail
  else do
    let num := (old.size + 1) / 2
    let (old', nw') ← leafSplitLoop num old nw
    if ¬ old'.minSize ≤ old'.size then .error .ensureFail
    else if ¬ old'.size ≤ nw'.size then .error .ensureFail
    else .ok ((nw'.cells 0).1, old', nw')

/-- The move loop of `BPlusTreeLeafPage::Merge`: for `i` in `[0, rightSize)`,
insert `right`'s entry `i` into `left`, zero the slot, and decrement `right`'s
size. -/
def leafMergeLoop (rightSize : Nat) :
    Nat → LeafPage → LeafPage → Except Crash (LeafPage × LeafPage)
  | 0, left, right => .ok (left, right)
  | n + 1, left, right => do
    let i := rightSize - (n + 1)
    let (_, left') ← left.insert (right.cells i).1 (right.cells i).2
    let right' : LeafPage :=
      { right with cells := fun j => if j = i then leafZero else right.cells j,
                   size := right.size - 1 }
    leafMergeLoop rightSize n left' right'

/-- `BPlusTreeLeafPage::Merge(comparator, page)`: move every entry of `right`
into `left`, then splice `right` out of the sibling chain
(`left.next := right.next; right.next := INVALID`). -/
def LeafPage.merge (left right : LeafPage) : Except Crash (LeafPage × LeafPage) := do
  let (left', right') ← leafMergeLoop right.size right.size left right
  if ¬ right'.size = 0 then .error .ensureFail
  else
    .ok ({ left' with nextPageId := right'.nextPageId },
         { right' with nextPageId := INVALID_PAGE_ID })

/-- `BPlusTreeLeafPage::Redistribute(comparator, page)` with `this = left` and
`page = right`: move one entry across the boundary and return the new first
key of `right` (the separator to store in the parent). -/
def LeafPage.redistribute (left right : LeafPage) :
    Except Crash (Int × LeafPage × LeafPage) := do
  if ¬ (left.minSize < right.size ∨ left.minSize < left.size) then .error .ensureFail
  else if left.minSize < left.size then do
    let index := left.size - 1
    let (_, right') ← right.insert (left.cells index).1 (left.cells index).2
    let left' := left.deleteKeyAt index
    .ok ((right'.cells 0).1, left', right')
  else do
    let (_, left') ← left.insert (right.cells 0).1 (right.cells 0).2
    let right' := right.deleteKeyAt 0
    .ok ((right'.cells 0).1, left', right')

/-! ## Internal pages -/

/-- `BPlusTreeInternalPage::Init(max_size)` on a freshly allocated (zeroed)
frame. -/
def InternalPage.init (maxSize : Nat) : InternalPage :=
  { cells := fun _ => internalZero, size := 0, maxSize := maxSize }

/-- `BPlusTreeInternalPage::Insert(comparator, key, value)`: upper-bound over
the whole array —  including the "dead" entry 0, whose stored key takes part
in the comparison — then shift and insert. Always returns `true`. -/
def InternalPage.insert (p : InternalPage) (k : Int) (v : Int) :
    Except Crash (Bool × InternalPage) :=
  if ¬ p.size ≤ p.maxSize then .error .assertFail
  else
    let index := upperBoundIdx p.cells p.size k
    .ok (true, { p with cells := insertShift p.cells index p.size (k, v),
                        size := p.size + 1 })

/-- Private `BPlusTreeInternalPage::InsertAt(position, key, value)`. -/
def InternalPage.insertAt (p : InternalPage) (position : Nat) (k : Int) (v : Int) :
    InternalPage :=
  { p with cells := insertShift p.cells position p.size (k, v), size := p.size + 1 }

/-- Private `BPlusTreeInternalPage::DeleteKeytAt(position)`. -/
def InternalPage.deleteKeyAt (p : InternalPage) (position : Nat) : InternalPage :=
  { p with cells := eraseShift internalZero p.cells position p.size,
           size := p.size - 1 }

/-- `BPlusTreeInternalPage::Remove(search_index)`: shift the entries above
`search_index` down by one and shrink. -/
def InternalPage.remove (p : InternalPage) (searchIndex : Nat) : InternalPage :=
  { p with cells := eraseShift internalZero p.cells searchIndex p.size,
           size := p.size - 1 }

/-- `std::upper_bound(array_ + 1, array_ + size, ...)`: least index `i` with
`1 ≤ i < size` and `k < key_i`, and `size` if none. -/
def upperBoundFrom1 (cells : Nat → Int × α) (size : Nat) (k : Int) : Nat :=
  (List.range size).find? (fun i => 1 ≤ i ∧ k < (cells i).1) |>.getD size

/-- `BPlusTreeInternalPage::GetSearchIndex(comparator, key)`: the largest index
`i ≥ 1` with `key_i ≤ key`, clamped to `1` when there is none. -/
def InternalPage.getSearchIndex (p : InternalPage) (k : Int) : Nat :=
  let index := upperBoundFrom1 p.cells p.size k - 1
  if index = 0 then 1 else index

/-- `BPlusTreeInternalPage::GetChild(comparator, key)`: the child whose subtree
should contain `key`. The `BUSTUB_ENSURE` re-checks `key ≥` the key stored at
the chosen slot — including the "dead" key of entry 0. -/
def InternalPage.getChild (p : InternalPage) (k : Int) : Except Crash Int :=
  if ¬ 0 < p.size then .error .ensureFail
  else
    let index := upperBoundFrom1 p.cells p.size k
    if ¬ (p.cells (index - 1)).1 ≤ k then .error .ensureFail
    else .ok (p.cells (index - 1)).2

/-- The move loop of `BPlusTreeInternalPage::Split`: `num` iterations; each one
either moves the pending `(tmp_key, tmp_value)` into the new page (the first
time `tmp_key` exceeds the current last key of the old page) or moves the old
page's last entry across. -/
def internalSplitLoop (tmp : InternalEntry) :
    Nat → InternalPage → InternalPage → Bool →
    Except Crash (InternalPage × InternalPage × Bool)
  | 0, old, nw, inserted => .ok (old, nw, inserted)
  | n + 1, old, nw, inserted => do
    let index := old.size - 1
    if (old.cells index).1 < tmp.1 ∧ ¬ inserted then do
      let (_, nw') ← nw.insert tmp.1 tmp.2
      internalSplitLoop tmp n old nw' true
    else do
      let (_, nw') ← nw.insert (old.cells index).1 (old.cells index).2
      internalSplitLoop tmp n (old.deleteKeyAt index) nw' inserted

/-- `BPlusTreeInternalPage::Split(comparator, page)` with `this = old` (full)
and `page = nw` holding exactly the one pending entry: distribute the upper
`⌈(size+1)/2⌉` entries (pending entry included) to `nw`, fold the pending
entry into `old` otherwise, and return the propagated key (the first key of
`nw`, which is then overwritten with the zero key). -/
def InternalPage.split (old nw : InternalPage) :
    Except Crash (Int × InternalPage × InternalPage) := do
  if ¬ old.size = old.maxSize then .error .ensureFail
  else do
    let tmp := nw.cells 0
    let nw0 : InternalPage := { nw with size := nw.size - 1 }
    if ¬ nw0.size = 0 then .error .ensureFail
    else do
      let num := (old.size + 2) / 2
      let (old1, nw1, inserted) ← internalSplitLoop tmp num old nw0 false
      let (old2, nw2) ←
        if inserted then pure (old1, nw1)
        else do
          let (_, old2) ← old1.insert tmp.1 tmp.2
          pure (old2, nw1)
      let up := (nw2.cells 0).1
      let nw3 : InternalPage :=
        { nw2 with cells := fun j => if j = 0 then (0, (nw2.cells 0).2) else nw2.cells j }
      .ok (up, old2, nw3)

/-- The move loop of `BPlusTreeInternalPage::Merge`. -/
def internalMergeLoop (rightSize : Nat) :
    Nat → InternalPage → InternalPage → Except Crash (InternalPage × InternalPage)
  | 0, left, right => .ok (left, right)
  | n + 1, left, right => do
    let i := rightSize - (n + 1)
    let (_, left') ← left.insert (right.cells i).1 (right.cells i).2
    let right' : InternalPage :=
      { right with cells := fun j => if j = i then internalZero else right.cells j,
                   size := right.size - 1 }
    internalMergeLoop rightSize n left' right'

/-- `BPlusTreeInternalPage::Merge(comparator, page, key)` with `this = left`:
store the separator `key` into `right`'s dead entry 0 and move all of `right`'s
entries into `left`. -/
def InternalPage.merge (left right : InternalPage) (k : Int) :
    Except Crash (InternalPage × InternalPage) := do
  let right0 : InternalPage :=
    if left.size ≠ 0 then
      { right with cells := fun j => if j = 0 then (k, (right.cells 0).2) else right.cells j }
    else right
  let (left', right') ← internalMergeLoop right0.size right0.size left right0
  if ¬ right'.size = 0 then .error .ensureFail
  else if ¬ left'.size ≤ left'.maxSize then .error .ensureFail
  else .ok (left', right')

/-- `BPlusTreeInternalPage::Redistribute(comparator, page, key)` with
`this = left`: borrow one child across the boundary, moving the parent's
separator `key` down and returning the key to move up. -/
def InternalPage.redistribute (left right : InternalPage) (k : Int) :
    Except Crash (Int × InternalPage × InternalPage) := do
  if ¬ (right.size < left.minSize ∨ left.size < left.minSize) then .error .ensureFail
  else if right.size < left.size then do
    let up := (left.cells (left.size - 1)).1
    let right1 : InternalPage :=
      { right with cells := fun j => if j = 0 then (k, (right.cells 0).2) else right.cells j }
    let right2 := right1.insertAt 0 0 (left.cells (left.size - 1)).2
    let left' := left.deleteKeyAt (left.size - 1)
    .ok (up, left', right2)
  else do
    let up := (right.cells 1).1
    let (_, left') ← left.insert k (right.cells 0).2
    let right1 : InternalPage :=
      { right with cells := fun j => if j = 0 then ((right.cells 0).1, (right.cells 1).2)
                                     else right.cells j }
    let right2 := right1.deleteKeyAt 1
    .ok (up, left', right2)

/-! ## The B+ tree

`BPlusTree` over a page store. The header page (page 0, per the persisted-state
convention of the spec) is modelled by the `rootId` field; `nextPid` is the
buffer pool's monotonic `next_page_id_` (page 0 is the pre-allocated header, so
allocation starts at 1). The `.cpp` under `src/` was written against a variant
of `b_plus_tree.h` in which the traversal helpers do not re-fetch the header
page (the `.h` in `src/` declares a different `CreateTree` overload than the
one `Insert` calls, and its traversal helpers re-acquire the header guard that
`Insert`/`Remove` already hold); the model follows what the `.cpp` expects: the
context already holds the header write guard when traversal starts. -/

/-- A typed page of the store. The C++ code reinterprets raw frames; fetching a
page as the wrong type is modelled as a `typeConfusion` crash. -/
inductive Page where
  | leaf : LeafPage → Page
  | internal : InternalPage → Page

/-- The B+ tree state: the page store, the header page's `root_page_id_`, and
the buffer pool's `next_page_id_`, plus the tree's size parameters. -/
structure TreeState where
  pages : Int → Option Page
  rootId : Int
  nextPid : Int
  leafMax : Nat
  internalMax : Nat

/-- Latch events recorded by the model, mirroring guard acquisition
(`FetchPageRead` / `FetchPageWrite`) and release (`Drop` or destruction). -/
inductive LatchEvent where
  | acqR : Int → LatchEvent
  | relR : Int → LatchEvent
  | acqW : Int → LatchEvent
  | relW : Int → LatchEvent
  deriving Repr, DecidableEq

/-- A latch trace is balanced when, for every page, the number of read/write
acquisitions equals the number of read/write releases. -/
def balancedTrace (tr : List LatchEvent) : Prop :=
  ∀ pid : Int,
    ((tr.count (LatchEvent.acqR pid) = tr.count (LatchEvent.relR pid)) ∧
     (tr.count (LatchEvent.acqW pid) = tr.count (LatchEvent.relW pid)))

/-- `OperationType` (declared in headers not under `src/`; the two values used
by the traversal are INSERT and DELETE). -/
inductive OperationType where
  | ins : OperationType
  | del : OperationType
  deriving Repr, DecidableEq

/-- `BufferPoolManager::FetchPage` through a guard: a page id absent from the
store is a null dereference. (`Crash.outOfFuel` below models the unbounded C++
descent loop failing to terminate on a cyclic page graph; it is never hit on
the runs in this file.) -/
def TreeState.fetch (t : TreeState) (pid : Int) : Except Crash Page :=
  match t.pages pid with
  | some p => .ok p
  | none => .error .nullDeref

/-- Reinterpret a fetched page as a leaf (`guard.As<LeafPage>()`). -/
def asLeaf : Page → Except Crash LeafPage
  | .leaf p => .ok p
  | .internal _ => .error .typeConfusion

/-- Reinterpret a fetched page as an internal page (`guard.As<InternalPage>()`). -/
def asInternal : Page → Except Crash InternalPage
  | .internal p => .ok p
  | .leaf _ => .error .typeConfusion

/-- Store a page back (the C++ code mutates the frame in place through the
guard). -/
def TreeState.write (t : TreeState) (pid : Int) (p : Page) : TreeState :=
  { t with pages := Function.update t.pages pid (some p) }

/-- `BPlusTreePage::IsSafe(operation)` (base class not under `src/`); modelled
from the spec: a node is safe for INSERT if a hypothetical insert stays below
max (`size < max − 1` for leaves, `size < max` for internals) and safe for
DELETE if a hypothetical delete stays at or above min (`size > min`). -/
def Page.isSafe : Page → OperationType → Bool
  | .leaf p, .ins => p.size + 1 < p.maxSize
  | .leaf p, .del => p.minSize < p.size
  | .internal p, .ins => p.size < p.maxSize
  | .internal p, .del => p.minSize < p.size

/-- Leaf `IsFull()` (base class not under `src/`); modelled from the spec: a
leaf splits when its size reaches `max_size` (checked after the insert). -/
def LeafPage.isFull (p : LeafPage) : Bool := p.size = p.maxSize

/-- Internal `IsFull()`; modelled from the spec: an internal page splits when
its size reaches `max_size` (checked before inserting into it). -/
def InternalPage.isFull (p : InternalPage) : Bool := p.size = p.maxSize

/-- Release every write guard of the context: `ctx.write_set_.clear()` plus
(optionally) the header guard (`ctx.header_page_ = std::nullopt`). -/
def releaseAll (ws : List Int) (hh : Bool) : List LatchEvent :=
  ws.map LatchEvent.relW ++ (if hh then [LatchEvent.relW 0] else [])

/-- `TranverseTreeWithWLatch` (from `b_plus_tree.h`, with the header guard
already held by the caller as the `.cpp` expects): descend from `pid`, keeping
the write guards of the nodes below the deepest safe node. Returns the
retained write set (`ctx.write_set_`, leaf last), whether the header guard is
still held, and the trace of latch events. -/
def traverseW (t : TreeState) (k : Int) (op : OperationType) :
    Nat → Int → List Int → Bool → List LatchEvent →
    Except Crash (List Int × Bool × List LatchEvent)
  | 0, _, _, _, _ => .error .outOfFuel
  | fuel + 1, pid, ws, hh, tr => do
    let tr := tr ++ [LatchEvent.acqW pid]
    let pg ← t.fetch pid
    let (ws, hh, tr) :=
      if pg.isSafe op then ([], false, tr ++ releaseAll ws hh)
      else (ws, hh, tr)
    match pg with
    | .leaf _ => .ok (ws ++ [pid], hh, tr)
    | .internal ip =>
      if ¬ 2 ≤ ip.size then .error .assertFail
      else do
        let child ← ip.getChild k
        traverseW t k op fuel child (ws ++ [pid]) hh tr

/-- `TranverseTreeWithRLatch`: read descent to the leaf for `k`, releasing each
parent after latching the child. Returns the leaf's page id and the trace. -/
def traverseR (t : TreeState) (k : Int) :
    Nat → Int → List LatchEvent → Except Crash (Int × List LatchEvent)
  | 0, _, _ => .error .outOfFuel
  | fuel + 1, pid, tr => do
    let tr := tr ++ [LatchEvent.acqR pid]
    let pg ← t.fetch pid
    match pg with
    | .leaf _ => .ok (pid, tr)
    | .internal ip =>
      if ¬ 2 ≤ ip.size then .error .ensureFail
      else do
        let child ← ip.getChild k
        traverseR t k fuel child (tr ++ [LatchEvent.relR pid])

/-- `BPlusTree::GetValue(key, result)`: empty-tree check, read descent, then
`BPlusTreeLeafPage::GetValue` on the leaf. (The `.cpp` calls the read
traversal without re-reading the header — variant skew noted above; the model
descends from the current root as every variant intends.) -/
def getValueOp (t : TreeState) (k : Int) (fuel : Nat) :
    Except Crash (Bool × List Nat) := do
  if t.rootId = INVALID_PAGE_ID then .ok (false, [])
  else do
    let (leafPid, _) ← traverseR t k fuel t.rootId []
    let lf ← t.fetch leafPid >>= asLeaf
    .ok (lf.getValue k)

/-- `BPlusTree::CreateTree(ctx, key, value)`. The overload the `.cpp` calls is
not under `src/`; modelled from the spec: with the tree empty, under the
header's exclusive latch, create a leaf, insert the pair, and store its id in
the header (the `.h` variant returns `false` without updating the header when
the leaf insert fails). -/
def createTree (t : TreeState) (k : Int) (v : Nat) :
    Except Crash (Bool × TreeState) := do
  let pid := t.nextPid
  let (ok, lf) ← (LeafPage.init t.leafMax).insert k v
  let t := { t with nextPid := t.nextPid + 1 }
  let t := t.write pid (.leaf lf)
  if ok then .ok (true, { t with rootId := pid })
  else .ok (false, t)

/-- `BPlusTree::IncreaseTree(ctx, key, value)`: allocate a new internal root
with the old root as child 0 and `(key, value)` as entry 1, and point the
header at it. Requires the header guard (`BUSTUB_ENSURE(ctx.header_page_)`). -/
def increaseTree (t : TreeState) (ctxRoot : Int) (k : Int) (v : Int) (hh : Bool) :
    Except Crash TreeState := do
  if ¬ hh then .error .ensureFail
  else do
    let pid := t.nextPid
    let ip := InternalPage.init t.internalMax
    let (_, ip) ← ip.insert 0 ctxRoot
    let (_, ip) ← ip.insert k v
    if ¬ 2 ≤ ip.size then .error .ensureFail
    else
      let t := { t with nextPid := t.nextPid + 1 }
      let t := t.write pid (.internal ip)
      .ok { t with rootId := pid }

/-- `BPlusTree::SplitLeafPage(leaf_page, key, value)`: allocate a new leaf,
splice it into the sibling chain after `leafPid`, then move the upper half of
the entries across. Returns the propagated key and the new page id. -/
def splitLeafPage (t : TreeState) (leafPid : Int) (lf : LeafPage) :
    Except Crash (Int × Int × TreeState) := do
  let newPid := t.nextPid
  let t := { t with nextPid := t.nextPid + 1 }
  let pg := LeafPage.init t.leafMax
  let pg := { pg with nextPageId := lf.nextPageId }
  let lf := { lf with nextPageId := newPid }
  let t := (t.write leafPid (.leaf lf)).write newPid (.leaf pg)
  if ¬ pg.size = 0 then .error .ensureFail
  else do
    let (childKey, old, nw) ← lf.split pg
    let t := (t.write leafPid (.leaf old)).write newPid (.leaf nw)
    .ok (childKey, newPid, t)

/-- `BPlusTree::SplitInternalPage(internal_page, key, value)`: allocate a new
internal page holding the pending `(key, value)`, then split. Returns the new
propagated key and the new page id. -/
def splitInternalPage (t : TreeState) (pid : Int) (ip : InternalPage)
    (k : Int) (v : Int) : Except Crash (Int × Int × TreeState × InternalPage) := do
  let newPid := t.nextPid
  let t := { t with nextPid := t.nextPid + 1 }
  let pg := InternalPage.init t.internalMax
  let (_, pg) ← pg.insert k v
  let t := t.write newPid (.internal pg)
  let (up, old, nw) ← ip.split pg
  let t := (t.write pid (.internal old)).write newPid (.internal nw)
  .ok (up, newPid, t, old)

/-- The back-propagation loop of `BPlusTree::Insert` over the retained write
set (`ws` is `ctx.write_set_` reversed: deepest internal first). `childKey` /
`childValue` are the pending separator and page id from the split below. -/
def insertLoop (t : TreeState) (ctxRoot : Int) :
    List Int → Bool → Int → Int → List LatchEvent →
    Except Crash (TreeState × List LatchEvent)
  | [], hh, _, _, tr => .ok (t, tr ++ (if hh then [LatchEvent.relW 0] else []))
  | pid :: rest, hh, childKey, childValue, tr => do
    let ip ← t.fetch pid >>= asInternal
    if ¬ ip.isFull then do
      if ¬ rest = [] then .error .assertFail
      else do
        let (_, ip') ← ip.insert childKey childValue
        let t := t.write pid (.internal ip')
        .ok (t, tr ++ [LatchEvent.relW pid] ++ (if hh then [LatchEvent.relW 0] else []))
    else do
      let (up, newPid, t, old) ← splitInternalPage t pid ip childKey childValue
      if ¬ old.minSize ≤ old.size then .error .assertFail
      else if pid = ctxRoot then do
        let t ← increaseTree t ctxRoot up newPid hh
        insertLoop t ctxRoot rest false up newPid
          (tr ++ [LatchEvent.relW 0, LatchEvent.relW pid])
      else
        insertLoop t ctxRoot rest hh up newPid (tr ++ [LatchEvent.relW pid])

/-- `BPlusTree::Insert(key, value)`: grab the header, create the tree if
empty, otherwise write-descend, insert at the leaf (`false` on duplicate), and
split upward while pages are full. Returns the result, the new state, and the
latch trace. -/
def insertOp (t : TreeState) (k : Int) (v : Nat) (fuel : Nat) :
    Except Crash (Bool × TreeState × List LatchEvent) := do
  let tr : List LatchEvent := [LatchEvent.acqW 0]
  let root := t.rootId
  if root = INVALID_PAGE_ID then do
    let (ok, t') ← createTree t k v
    .ok (ok, t', tr ++ [LatchEvent.relW 0])
  else do
    let (ws, hh, tr) ← traverseW t k .ins fuel root [] true tr
    let leafPid := ws.getLast?.getD 0
    let ws := ws.dropLast
    let lf ← t.fetch leafPid >>= asLeaf
    let (ok, lf') ← lf.insert k v
    if ¬ ok then
      .ok (false, t,
           tr ++ (if hh then [LatchEvent.relW 0] else []) ++ ws.map LatchEvent.relW
              ++ [LatchEvent.relW leafPid])
    else do
      let t := t.write leafPid (.leaf lf')
      if ¬ lf'.isFull then do
        if ¬ ws = [] then .error .ensureFail
        else
          .ok (true, t,
               tr ++ [LatchEvent.relW leafPid] ++ (if hh then [LatchEvent.relW 0] else []))
      else do
        let (childKey, newPid, t) ← splitLeafPage t leafPid lf'
        if leafPid = root then do
          let t ← increaseTree t root childKey newPid hh
          if ¬ ws = [] then .error .ensureFail
          else .ok (true, t, tr ++ [LatchEvent.relW 0, LatchEvent.relW leafPid])
        else do
          let (t, tr) ← insertLoop t root ws.reverse hh childKey newPid
            (tr ++ [LatchEvent.relW leafPid])
          .ok (true, t, tr)

/-- `SetKeyAt(search_index, up_key)` on an internal page. -/
def InternalPage.setKeyAt (p : InternalPage) (i : Nat) (k : Int) : InternalPage :=
  { p with cells := fun j => if j = i then (k, (p.cells i).2) else p.cells j }

/-- The underflow-repair loop of `BPlusTree::Remove` over the retained write
set (`ws` is `ctx.write_set_` reversed). `first` distinguishes the leaf layer
(`i == 0`) from the internal layers; `sib1` is the guard carried over from the
previous iteration (initially the leaf the delete happened in). -/
def removeLoop (t : TreeState) (k : Int) (ctxRoot : Int) (hh : Bool) :
    List Int → Bool → Int → Except Crash TreeState
  | [], _, _ => .ok t
  | gpid :: rest, first, sib1 => do
    let page ← t.fetch gpid >>= asInternal
    let si := page.getSearchIndex k
    if ¬ (0 < si ∧ si < page.size) then .error .ensureFail
    else do
      let leftId := si - 1
      let rightId := si
      if first then do
        let (leftPid, rightPid) :=
          if sib1 = (page.cells leftId).2 then (sib1, (page.cells rightId).2)
          else ((page.cells leftId).2, sib1)
        let left ← t.fetch leftPid >>= asLeaf
        let right ← t.fetch rightPid >>= asLeaf
        if ¬ leftPid ≠ rightPid then .error .ensureFail
        else if left.minSize < left.size ∨ right.minSize < right.size then do
          let (up, left', right') ← left.redistribute right
          let page' := page.setKeyAt si up
          let t := ((t.write leftPid (.leaf left')).write rightPid
                      (.leaf right')).write gpid (.internal page')
          if ¬ left'.minSize ≤ left'.size then .error .ensureFail
          else if ¬ right'.minSize ≤ right'.size then .error .ensureFail
          else .ok t
        else do
          let (left', right') ← left.merge right
          let t := (t.write leftPid (.leaf left')).write rightPid (.leaf right')
          if ¬ left'.minSize ≤ left'.size then .error .ensureFail
          else if ¬ right'.size = 0 then .error .ensureFail
          else do
            let page' := page.remove si
            let t := t.write gpid (.internal page')
            if gpid = ctxRoot ∧ page'.size < 2 then
              if ¬ hh then .error .ensureFail
              else .ok { t with rootId := (page'.cells (si - 1)).2 }
            else removeLoop t k ctxRoot hh rest false gpid
      else do
        let (leftPid, rightPid) :=
          if sib1 = (page.cells leftId).2 then (sib1, (page.cells rightId).2)
          else ((page.cells leftId).2, sib1)
        let left ← t.fetch leftPid >>= asInternal
        let right ← t.fetch rightPid >>= asInternal
        if ¬ leftPid ≠ rightPid then .error .ensureFail
        else if left.minSize < left.size ∨ right.minSize < right.size then do
          if ¬ (left.size < left.minSize ∨ right.size < left.minSize) then
            .error .ensureFail
          else do
            let (up, left', right') ← left.redistribute right (page.cells si).1
            let page' := page.setKeyAt si up
            let t := ((t.write leftPid (.internal left')).write rightPid
                        (.internal right')).write gpid (.internal page')
            if ¬ left'.minSize ≤ left'.size then .error .ensureFail
            else if ¬ right'.minSize ≤ right'.size then .error .ensureFail
            else .ok t
        else do
          let (left', right') ← left.merge right (page.cells si).1
          let t := (t.write leftPid (.internal left')).write rightPid (.internal right')
          if ¬ left'.minSize ≤ left'.size then .error .ensureFail
          else if ¬ right'.size = 0 then .error .ensureFail
          else do
            let page' := page.remove si
            let t := t.write gpid (.internal page')
            if gpid = ctxRoot ∧ page'.size < 2 then
              if ¬ hh then .error .ensureFail
              else .ok { t with rootId := (page'.cells (si - 1)).2 }
            else removeLoop t k ctxRoot hh rest false gpid

/-- `BPlusTree::Remove(key)`: empty check, write descent, delete at the leaf
(silent no-op when absent), root collapse for an emptied root leaf, then the
underflow-repair loop over the retained ancestors. -/
def removeOp (t : TreeState) (k : Int) (fuel : Nat) : Except Crash TreeState := do
  if t.rootId = INVALID_PAGE_ID then .ok t
  else do
    let root := t.rootId
    let (ws, hh, _) ← traverseW t k .del fuel root [] true [LatchEvent.acqW 0]
    let leafPid := ws.getLast?.getD 0
    let ws := ws.dropLast
    let lf ← t.fetch leafPid >>= asLeaf
    let (ok, lf') ← lf.remove k
    if ¬ ok then .ok t
    else do
      let t := t.write leafPid (.leaf lf')
      if leafPid = root ∧ lf'.size = 0 then do
        if ¬ ws = [] then .error .ensureFail
        else if ¬ hh then .error .ensureFail
        else .ok { t with rootId := INVALID_PAGE_ID }
      else removeLoop t k root hh ws.reverse true leafPid

/-- `BPlusTree::Begin()`: `IsEmpty()` check, then `FetchPageRead(1)` — the
page id of the leftmost leaf is hard-coded as `1` — and an iterator positioned
at index 0 of that page. Returns `(page_id, index)` of the iterator, `none`
for the end iterator. -/
def beginOp (t : TreeState) : Option (Int × Nat) :=
  if t.rootId = INVALID_PAGE_ID then none else some (1, 0)

/-- The page id of the actual leftmost leaf: descend from the root through
child 0 of every internal page (the read descent of the spec). -/
def leftmostLeafPid (t : TreeState) : Nat → Int → Except Crash Int
  | 0, _ => .error .outOfFuel
  | fuel + 1, pid => do
    let pg ← t.fetch pid
    match pg with
    | .leaf _ => .ok pid
    | .internal ip => leftmostLeafPid t fuel (ip.cells 0).2

/-- The logical keys of a leaf page, in slot order. -/
def LeafPage.keys (p : LeafPage) : List Int :=
  (List.range p.size).map (fun i => (p.cells i).1)

/-- Concatenate the keys of the leaves along the `next_page_id` chain starting
at `pid`. -/
def chainFrom (t : TreeState) : Nat → Int → Except Crash (List Int)
  | 0, _ => .error .outOfFuel
  | fuel + 1, pid =>
    if pid = INVALID_PAGE_ID then .ok []
    else do
      let lf ← t.fetch pid >>= asLeaf
      let rest ← chainFrom t fuel lf.nextPageId
      .ok (lf.keys ++ rest)

/-- The key sequence of the sibling chain starting from the leftmost leaf. -/
def chainKeys (t : TreeState) (fuel : Nat) : Except Crash (List Int) := do
  if t.rootId = INVALID_PAGE_ID then .ok []
  else do
    let lm ← leftmostLeafPid t fuel t.rootId
    chainFrom t fuel lm

/-- A fresh tree over an empty page store: the header page (page 0) holds
INVALID, allocation starts with page 1. -/
def TreeState.empty (leafMax internalMax : Nat) : TreeState :=
  { pages := fun _ => none, rootId := INVALID_PAGE_ID, nextPid := 1,
    leafMax := leafMax, internalMax := internalMax }

/-- One operation of a client sequence against the tree. -/
inductive TreeOp where
  | ins (k : Int) (v : Nat) : TreeOp
  | del (k : Int) : TreeOp

/-- Run a sequence of inserts and deletes from a given state. -/
def runOps (fuel : Nat) : TreeState → List TreeOp → Except Crash TreeState
  | t, [] => .ok t
  | t, .ins k v :: rest => do
    let (_, t', _) ← insertOp t k v fuel
    runOps fuel t' rest
  | t, .del k :: rest => do
    let t' ← removeOp t k fuel
    runOps fuel t' rest

/-! ## The LRU-K replacer (`src/buffer/lru_k_replacer.cpp`)

The node internals (`lru_k_replacer.h`) are not under `src/`; `LRUKNode` is
modelled from the spec: a bounded FIFO of the last `k` access timestamps and an
evictable flag, with backward k-distance `+∞` when fewer than `k` accesses have
been recorded and `now − timestamp_of_kth_most_recent_access` otherwise (the
C++ encodes `+∞` as a maximal `size_t`, so `∞ = ∞` ties compare equal, matching
`KDist` below). `node_store_` is a `std::unordered_map`; its unspecified
iteration order is modelled as the order of an association list (insertion
order here); the runs below are order-insensitive except where noted. -/

/-- Per-frame access history node (modelled from the spec). `history` keeps the
most recent timestamp first. -/
structure LRUKNode where
  history : List Nat
  k : Nat
  evictable : Bool
  deriving Repr, DecidableEq

/-- A backward k-distance: finite or `+∞`. -/
inductive KDist where
  | fin (d : Nat) : KDist
  | inf : KDist
  deriving Repr, DecidableEq

/-- Strict comparison of distances (`∞` is maximal; `∞ < ∞` is false, as with
the `size_t` encoding). -/
def KDist.ltb : KDist → KDist → Bool
  | .fin a, .fin b => a < b
  | .fin _, .inf => true
  | .inf, _ => false

/-- `LRUKNode::UpdateHistory(ts)` (modelled from the spec): append, trimming to
the last `k` entries. -/
def LRUKNode.update (n : LRUKNode) (ts : Nat) : LRUKNode :=
  { n with history := (ts :: n.history).take n.k }

/-- `LRUKNode::GetBackwardDistance(now)` (modelled from the spec). -/
def LRUKNode.backwardDistance (n : LRUKNode) (now : Nat) : KDist :=
  if n.history.length < n.k then .inf
  else .fin (now - (n.history.getD (n.k - 1) 0))

/-- `LRUKNode::GetEariestAccessTime()` (modelled from the spec: the oldest
recorded timestamp). -/
def LRUKNode.earliest (n : LRUKNode) : Nat := n.history.getLastD 0

/-- `LRUKReplacer` state: the node store in iteration order, the monotonic
timestamp, the evictable count, and the configuration. -/
structure LRUKReplacer where
  store : List (Nat × LRUKNode)
  currentTs : Nat
  currSize : Nat
  k : Nat
  replacerSize : Nat
  deriving Repr, DecidableEq

/-- `LRUKReplacer(num_frames, k)`. -/
def LRUKReplacer.new (numFrames k : Nat) : LRUKReplacer :=
  { store := [], currentTs := 0, currSize := 0, k := k, replacerSize := numFrames }

/-- The candidate-selection loop of `LRUKReplacer::Evict`: `max` starts at
`numeric_limits<size_t>::min() = 0` and `frame_to_evict` at `-1`; on a distance
tie the code reads `node_store_.at(frame_to_evict)`, which throws
`std::out_of_range` when no candidate has been chosen yet. -/
def evictLoop (store : List (Nat × LRUKNode)) (now : Nat) :
    List (Nat × LRUKNode) → Option Nat → KDist → Except Crash (Option Nat)
  | [], cand, _ => .ok cand
  | (fid, node) :: rest, cand, maxD =>
    if ¬ node.evictable then evictLoop store now rest cand maxD
    else
      let d := node.backwardDistance now
      if maxD.ltb d then evictLoop store now rest (some fid) d
      else if d = maxD then
        match cand with
        | none => .error .atOutOfRange
        | some cfid =>
          match store.lookup cfid with
          | none => .error .atOutOfRange
          | some cnode =>
            if node.earliest < cnode.earliest then evictLoop store now rest (some fid) maxD
            else evictLoop store now rest cand maxD
      else evictLoop store now rest cand maxD

/-- `LRUKReplacer::Evict(frame_id)`: `some fid` on success (node removed,
count decremented), `none` when no evictable frame exists. -/
def LRUKReplacer.evict (r : LRUKReplacer) : Except Crash (Option Nat × LRUKReplacer) := do
  let cand ← evictLoop r.store r.currentTs r.store none (.fin 0)
  match cand with
  | some fid =>
    .ok (some fid, { r with currSize := r.currSize - 1,
                            store := r.store.filter (fun e => ¬ e.1 = fid) })
  | none => .ok (none, r)

/-- `LRUKReplacer::RecordAccess(frame_id)`: bounds check
(`replacer_size_ < frame_id` throws), then update or create the node with the
incremented timestamp. -/
def LRUKReplacer.recordAccess (r : LRUKReplacer) (fid : Nat) :
    Except Crash LRUKReplacer :=
  if r.replacerSize < fid then .error .runtimeErr
  else
    let ts := r.currentTs + 1
    match r.store.lookup fid with
    | some _ =>
      .ok { r with currentTs := ts,
                   store := r.store.map (fun e =>
                     if e.1 = fid then (e.1, e.2.update ts) else e) }
    | none =>
      let node : LRUKNode := { history := [], k := r.k, evictable := false }
      .ok { r with currentTs := ts, store := r.store ++ [(fid, node.update ts)] }

/-- `LRUKReplacer::SetEvictable(frame_id, set_evictable)`: bounds check, throw
for an unknown frame, adjust the evictable count on a transition, set the flag. -/
def LRUKReplacer.setEvictable (r : LRUKReplacer) (fid : Nat) (b : Bool) :
    Except Crash LRUKReplacer :=
  if r.replacerSize < fid then .error .runtimeErr
  else
    match r.store.lookup fid with
    | none => .error .runtimeErr
    | some node =>
      let newSize :=
        if node.evictable ∧ ¬ b then r.currSize - 1
        else if b ∧ ¬ node.evictable then r.currSize + 1
        else r.currSize
      .ok { r with currSize := newSize,
                   store := r.store.map (fun e =>
                     if e.1 = fid then (e.1, { e.2 with evictable := b }) else e) }

/-- `LRUKReplacer::Remove(frame_id)`: no-op when unknown, throws when the frame
is not evictable, otherwise drops the node. -/
def LRUKReplacer.removeFrame (r : LRUKReplacer) (fid : Nat) :
    Except Crash LRUKReplacer :=
  match r.store.lookup fid with
  | none => .ok r
  | some node =>
    if ¬ node.evictable then .error .runtimeErr
    else .ok { r with currSize := r.currSize - 1,
                      store := r.store.filter (fun e => ¬ e.1 = fid) }

/-! ## Page guards (`src/storage/page/page_guard.cpp`) -/

/-- The fields of `BasicPageGuard` that `Drop` inspects: whether `bpm_` and
`page_` are non-null, and the page's id and the guard's dirty flag. -/
structure GuardState where
  hasBpm : Bool
  hasPage : Bool
  pageId : Int
  isDirty : Bool
  deriving Repr, DecidableEq

/-- The externally visible calls a guard's `Drop` makes, in program order. -/
inductive GuardEvent where
  | unpin (pid : Int) (dirty : Bool) : GuardEvent
  | rUnlatch (pid : Int) : GuardEvent
  | wUnlatch (pid : Int) : GuardEvent
  deriving Repr, DecidableEq

/-- `ReadPageGuard::Drop`: when a page is held, call
`bpm_->UnpinPage(PageId(), is_dirty_)` and then `page_->RUnlatch()`, in that
order. -/
def readPageGuardDrop (g : GuardState) : List GuardEvent :=
  if g.hasPage ∧ g.hasBpm then
    [.unpin g.pageId g.isDirty, .rUnlatch g.pageId]
  else []

/-- `WritePageGuard::Drop`: when a page is held, call
`bpm_->UnpinPage(PageId(), is_dirty_)` and then `page_->WUnlatch()`, in that
order. -/
def writePageGuardDrop (g : GuardState) : List GuardEvent :=
  if g.hasPage ∧ g.hasBpm then
    [.unpin g.pageId g.isDirty, .wUnlatch g.pageId]
  else []

/-- Is the event a latch release? -/
def GuardEvent.isLatchRelease : GuardEvent → Bool
  | .rUnlatch _ => true
  | .wUnlatch _ => true
  | .unpin _ _ => false

/-- Is the event an unpin? -/
def GuardEvent.isUnpin : GuardEvent → Bool
  | .unpin _ _ => true
  | _ => false

/-- The ordering contract of the spec: in the drop's call sequence, the latch
release comes before (or atomically with) the unpin. -/
abbrev latchReleasedBeforeUnpin (tr : List GuardEvent) : Prop :=
  tr.findIdx GuardEvent.isLatchRelease ≤ tr.findIdx GuardEvent.isUnpin

/-! ## The buffer pool manager (`src/buffer/buffer_pool_manager.cpp`)

Page data is not tracked (disk reads and writes are no-ops here); only the
metadata the fetch path inspects is modelled. `NewBufferPage` is declared in
`buffer_pool_manager.h`, which is not under `src/`; it is modelled from the
spec's frame-initialization step: set the page id, `pin_count := 1`,
`is_dirty := false`, record an access and mark the frame non-evictable in the
replacer, and insert into the page table. -/

/-- The metadata of a `Page` object in the frame array. -/
structure FrameMeta where
  pageId : Int
  pinCount : Nat
  isDirty : Bool
  deriving Repr, DecidableEq

/-- A zeroed frame. -/
def FrameMeta.reset : FrameMeta :=
  { pageId := INVALID_PAGE_ID, pinCount := 0, isDirty := false }

/-- `BufferPoolManager` state. `frames` has length `poolSize`, indexed by frame
id. -/
structure BPM where
  poolSize : Nat
  frames : List FrameMeta
  pageTable : List (Int × Nat)
  freeList : List Nat
  replacer : LRUKReplacer
  nextPageId : Int
  deriving Repr, DecidableEq

/-- `BufferPoolManager(pool_size, disk_manager, replacer_k, ...)`: every frame
starts on the free list. -/
def BPM.new (poolSize replacerK : Nat) : BPM :=
  { poolSize := poolSize,
    frames := List.replicate poolSize FrameMeta.reset,
    pageTable := [],
    freeList := List.range poolSize,
    replacer := LRUKReplacer.new poolSize replacerK,
    nextPageId := 0 }

/-- Read a frame's metadata (`pages_[frame_id]`). -/
def BPM.frame (b : BPM) (fid : Nat) : FrameMeta := b.frames.getD fid FrameMeta.reset

/-- Write a frame's metadata in place. -/
def BPM.setFrame (b : BPM) (fid : Nat) (m : FrameMeta) : BPM :=
  { b with frames := b.frames.set fid m }

/-- `BufferPoolManager::HasReplacementFrame(frame_id)`: prefer the free list;
otherwise ask the replacer for a victim, flush it when dirty, and clear its
metadata and page-table entry. Returns the chosen frame id or `none`. -/
def BPM.hasReplacementFrame (b : BPM) : Except Crash (Option Nat × BPM) := do
  match b.freeList with
  | fid :: rest => .ok (some fid, { b with freeList := rest })
  | [] => do
    let (victim, rep) ← b.replacer.evict
    let b := { b with replacer := rep }
    match victim with
    | none => .ok (none, b)
    | some fid =>
      let m := b.frame fid
      let m := { m with isDirty := false }
      let b := { b with pageTable := b.pageTable.filter (fun e => ¬ e.1 = m.pageId) }
      let b := b.setFrame fid { FrameMeta.reset with pageId := INVALID_PAGE_ID }
      .ok (some fid, b)

/-- `NewBufferPage(frame_id, page_id)` (modelled from the spec, see above). -/
def BPM.newBufferPage (b : BPM) (fid : Nat) (pid : Int) : Except Crash BPM := do
  let rep ← b.replacer.recordAccess fid
  let rep ← rep.setEvictable fid false
  let b := { b with replacer := rep }
  let b := b.setFrame fid { pageId := pid, pinCount := 1, isDirty := false }
  .ok { b with pageTable := b.pageTable ++ [(pid, fid)] }

/-- `BufferPoolManager::NewPage(page_id)`: allocate a fresh page id when a
frame is available, `none` (a null `Page*`) otherwise. -/
def BPM.newPage (b : BPM) : Except Crash (Option (Int × Nat) × BPM) := do
  let (res, b) ← b.hasReplacementFrame
  match res with
  | some fid =>
    let pid := b.nextPageId
    let b := { b with nextPageId := b.nextPageId + 1 }
    let b ← b.newBufferPage fid pid
    .ok (some (pid, fid), b)
  | none => .ok (none, b)

/-- `BufferPoolManager::FetchPage(page_id)`: when resident, mark non-evictable,
record the access, bump the pin count and return the frame; otherwise pick a
frame, read the page from disk into it and initialize it; `none` (a null
`Page*`) when no frame is available. -/
def BPM.fetchPage (b : BPM) (pid : Int) : Except Crash (Option Nat × BPM) := do
  match b.pageTable.lookup pid with
  | some fid => do
    let rep ← b.replacer.setEvictable fid false
    let rep ← rep.recordAccess fid
    let b := { b with replacer := rep }
    let m := b.frame fid
    let b := b.setFrame fid { m with pinCount := m.pinCount + 1 }
    .ok (some fid, b)
  | none => do
    let (res, b) ← b.hasReplacementFrame
    match res with
    | some fid => do
      let b ← b.newBufferPage fid pid
      .ok (some fid, b)
    | none => .ok (none, b)

/-- `BufferPoolManager::FetchPageRead(page_id)`: `FetchPage` and then
`page->RLatch()` on the result with no null check — when `FetchPage` returns
null this dereferences a null pointer. -/
def BPM.fetchPageRead (b : BPM) (pid : Int) : Except Crash (Nat × BPM) := do
  let (res, b) ← b.fetchPage pid
  match res with
  | none => .error .nullDeref
  | some fid => .ok (fid, b)

/-- `BufferPoolManager::FetchPageWrite(page_id)`: `FetchPage` and then
`page->WLatch()` with no null check. -/
def BPM.fetchPageWrite (b : BPM) (pid : Int) : Except Crash (Nat × BPM) := do
  let (res, b) ← b.fetchPage pid
  match res with
  | none => .error .nullDeref
  | some fid => .ok (fid, b)

/-! ## The lock manager (`src/concurrency/lock_manager.cpp` and
`src/include/concurrency/lock_manager.h`) -/

/-- `LockManager::LockMode`. -/
inductive LockMode where
  | shared : LockMode
  | exclusive : LockMode
  | intentionShared : LockMode
  | intentionExclusive : LockMode
  | sharedIntentionExclusive : LockMode
  deriving Repr, DecidableEq

/-- `LockManager::AreLocksCompatible(l1, l2)` — `l1` is the holder, `l2` the
requester. -/
def areLocksCompatible : LockMode → LockMode → Bool
  | .shared, l2 => l2 = .intentionShared ∨ l2 = .shared
  | .exclusive, _ => false
  | .intentionShared, l2 =>
    l2 = .intentionShared ∨ l2 = .intentionExclusive ∨ l2 = .shared ∨
      l2 = .sharedIntentionExclusive
  | .intentionExclusive, l2 => l2 = .intentionShared ∨ l2 = .intentionExclusive
  | .sharedIntentionExclusive, l2 => l2 = .intentionShared

/-- `LockManager::CanLockUpgrade(curr, requested)`. -/
def canLockUpgrade : LockMode → LockMode → Bool
  | .shared, req => req = .exclusive ∨ req = .sharedIntentionExclusive
  | .intentionExclusive, req => req = .exclusive ∨ req = .sharedIntentionExclusive
  | .intentionShared, req =>
    req = .shared ∨ req = .exclusive ∨ req = .intentionExclusive ∨
      req = .sharedIntentionExclusive
  | .sharedIntentionExclusive, req => req = .exclusive
  | .exclusive, _ => false

/-- A `LockManager::LockRequest` (the fields the queue logic inspects). -/
structure LockRequest where
  txnId : Int
  mode : LockMode
  granted : Bool
  deriving Repr, DecidableEq

/-- `LockManager::GrantLock(lock_request, lock_request_queue)`: `false` when
some granted request is incompatible with the request's mode; otherwise the
first ungranted request in the queue must be the request itself (compared by
transaction id), and `true` when there is no ungranted request at all. -/
def grantLock (r : LockRequest) (q : List LockRequest) : Bool :=
  if q.all (fun x => ¬ x.granted ∨ areLocksCompatible x.mode r.mode) then
    match q.find? (fun x => ¬ x.granted) with
    | some u => u.txnId = r.txnId
    | none => true
  else false

/-- The grant condition exactly as claim C6 words it (a definition following
the claim's sentence, for comparison with `grantLock` above): every granted
request in the queue is compatible with the request's mode, and the request is
the first ungranted request — or is batch-grantable with it, their modes being
compatible. -/
def grantLockClaimed (r : LockRequest) (q : List LockRequest) : Bool :=
  if q.all (fun x => ¬ x.granted ∨ areLocksCompatible x.mode r.mode) then
    match q.find? (fun x => ¬ x.granted) with
    | some u => u.txnId = r.txnId ∨ areLocksCompatible u.mode r.mode
    | none => true
  else false

/-- `INVALID_TXN_ID`. -/
def INVALID_TXN_ID : Int := -1

/-- `AbortReason` (the values reachable from the modelled upgrade path). -/
inductive AbortReason where
  | upgradeConflict : AbortReason
  | incompatibleUpgrade : AbortReason
  deriving Repr, DecidableEq

/-- Outcome of the upgrade branch of `LockManager::LockTable` (lines 35–90 of
`lock_manager.cpp`), up to the point where the caller starts waiting on the
condition variable. -/
inductive UpgradeResult where
  /-- The requested mode equals the held one: return `true` immediately. -/
  | sameMode : UpgradeResult
  /-- The transaction is aborted with the given reason. -/
  | aborted (r : AbortReason) : UpgradeResult
  /-- The old request was dropped, the upgrade request inserted, and the
  transaction recorded as the queue's upgrader: the state entering the wait
  loop. -/
  | reserved (q : List LockRequest) (upgrading : Int) : UpgradeResult
  /-- No request of this transaction is in the queue (the code falls through
  to the new-request path). -/
  | notHeld : UpgradeResult
  deriving Repr, DecidableEq

/-- The upgrade branch of `LockManager::LockTable`: find the transaction's
request; same mode returns immediately; a pending upgrader aborts with
UPGRADE_CONFLICT (checked **before** the lattice); a transition outside the
lattice aborts with INCOMPATIBLE_UPGRADE; otherwise drop the old request,
insert the new ungranted request before the first ungranted request (the front
of the ungranted suffix) and record `upgrading_ = txn_id`. -/
def lockTableUpgrade (txnId : Int) (mode : LockMode) (q : List LockRequest)
    (upgrading : Int) : UpgradeResult :=
  match q.find? (fun x => x.txnId = txnId) with
  | none => .notHeld
  | some r =>
    if r.mode = mode then .sameMode
    else if ¬ upgrading = INVALID_TXN_ID then .aborted .upgradeConflict
    else if ¬ canLockUpgrade r.mode mode then .aborted .incompatibleUpgrade
    else
      let q1 := q.eraseP (fun x => x.txnId = txnId)
      let newReq : LockRequest := { txnId := txnId, mode := mode, granted := false }
      let idx := q1.findIdx (fun x => ¬ x.granted)
      .reserved (q1.take idx ++ newReq :: q1.drop idx) txnId

/-! ## Auxiliary runs and predicates used by the theorems -/

/-- Run a list of inserts, collecting each insert's boolean result. -/
def runInserts (fuel : Nat) : TreeState → List (Int × Nat) →
    Except Crash (List Bool × TreeState)
  | t, [] => .ok ([], t)
  | t, (k, v) :: rest => do
    let (ok, t', _) ← insertOp t k v fuel
    let (oks, t2) ← runInserts fuel t' rest
    .ok (ok :: oks, t2)

/-- Is a key sequence strictly increasing? -/
def strictlyIncreasing : List Int → Bool
  | [] => true
  | [_] => true
  | a :: b :: rest => (a < b : Bool) && strictlyIncreasing (b :: rest)

theorem strictlyIncreasing_iff (l : List Int) :
    strictlyIncreasing l = true ↔ l.Chain' (fun a b : Int => a < b) := by
  induction l with
  | nil => simp [strictlyIncreasing]
  | cons a t ih =>
    cases t with
    | nil => simp [strictlyIncreasing]
    | cons b r =>
      rw [List.chain'_cons, ← ih]
      simp [strictlyIncreasing]

/-! ## Theorems for the claims -/

/-- C1: on drop of a Read/Write page guard that still holds a page, the code
calls `UnpinPage` first and releases the latch only afterwards — the opposite
of the claimed order. Evaluated at a guard holding page 7: the drop trace is
`[unpin, unlatch]`, so the latch release does **not** come before (or
atomically with) the unpin. -/
theorem C1_guard_drop_unpins_before_unlatch :
    readPageGuardDrop ⟨true, true, 7, false⟩ = [.unpin 7 false, .rUnlatch 7] ∧
    writePageGuardDrop ⟨true, true, 7, true⟩ = [.unpin 7 true, .wUnlatch 7] ∧
    ¬ latchReleasedBeforeUnpin (readPageGuardDrop ⟨true, true, 7, false⟩) ∧
    ¬ latchReleasedBeforeUnpin (writePageGuardDrop ⟨true, true, 7, true⟩) := by
  decide

set_option maxHeartbeats 2000000 in
/-- C2: inserting keys −1, −2, −3 (all inserts return `true`, none deleted)
builds a root whose entries are out of order, because `IncreaseTree` stores the
zero-initialized key of entry 0 and `InternalPage::Insert` sorts the real key
−2 before it; `get_value(−3)` then crashes on the `BUSTUB_ENSURE` in
`InternalPage::GetChild` instead of returning the inserted value 103. -/
theorem C2_inserted_key_lookup_crashes :
    ∃ t : TreeState,
      runInserts 64 (TreeState.empty 3 3) [(-1, 101), (-2, 102), (-3, 103)] =
        .ok ([true, true, true], t) ∧
      getValueOp t (-3) 64 = .error .ensureFail := ⟨_, rfl, rfl⟩

set_option maxHeartbeats 4000000 in
/-- C4: the seven-operation sequence below (leaf_max = internal_max = 3)
completes without any exception, yet afterwards the keys along the sibling
chain from the leftmost leaf read −1, 3, 4, −4, −2 — not strictly increasing.
(`Remove(0)` matches the zeroed cell past the logical end of a leaf whose keys
are all negative and deletes a real entry, after which the underflow repair
pairs non-adjacent pages.) -/
theorem C4_sibling_chain_not_increasing :
    ∃ t : TreeState,
      runOps 64 (TreeState.empty 3 3)
        [.ins (-5) 105, .ins (-4) 104, .ins (-1) 101, .ins (-2) 102,
         .del 0, .ins 3 203, .ins 4 204] = .ok t ∧
      chainKeys t 64 = .ok [-1, 3, 4, -4, -2] ∧
      strictlyIncreasing [-1, 3, 4, -4, -2] = false :=
  ⟨_, rfl, rfl, rfl⟩

/-- C5: the claim's own scenario S2 (k = 2, frames 1, 2, 3 accessed at times
1, 2, 3, all evictable) does evict 1 and then, after `record_access(2)`, evict
3 — but the general statement fails: with k = 1, after a single access to
frame 1 and `set_evictable(1, true)`, the sole evictable frame's backward
distance is 0, which equals the initial `max` (`numeric_limits<size_t>::min()`),
so the tie-break branch reads `node_store_.at(-1)` and throws
`std::out_of_range` instead of evicting frame 1. -/
theorem C5_evict_crash_and_tiebreak :
    (do
      let r := LRUKReplacer.new 7 1
      let r ← r.recordAccess 1
      let r ← r.setEvictable 1 true
      r.evict) = .error .atOutOfRange ∧
    (do
      let r := LRUKReplacer.new 7 2
      let r ← r.recordAccess 1
      let r ← r.recordAccess 2
      let r ← r.recordAccess 3
      let r ← r.setEvictable 1 true
      let r ← r.setEvictable 2 true
      let r ← r.setEvictable 3 true
      let (f1, r) ← r.evict
      let r ← r.recordAccess 2
      let (f2, r) ← r.evict
      .ok (f1, f2, r.currSize) : Except Crash (Option Nat × Option Nat × Nat)) =
      .ok (some 1, some 3, 1) := ⟨rfl, rfl⟩

set_option maxHeartbeats 4000000 in
/-- C8: after insert 1, remove 1 (the tree becomes empty), insert 2, the only
leaf — the leftmost leaf — is page 2, but `Begin()` returns an iterator on the
hard-coded page 1 (the stale first leaf) at index 0 instead of read-descending
to the leftmost leaf. -/
theorem C8_begin_fetches_page_one_not_leftmost :
    ∃ t : TreeState,
      runOps 64 (TreeState.empty 3 3) [.ins 1 101, .del 1, .ins 2 102] = .ok t ∧
      beginOp t = some (1, 0) ∧
      leftmostLeafPid t 64 t.rootId = .ok 2 ∧
      getValueOp t 2 64 = .ok (true, [102]) := ⟨_, rfl, rfl, rfl, rfl⟩

set_option maxHeartbeats 4000000 in
/-- C10: with a pool of one frame whose only page is pinned (`new_page` pinned
page 0 into frame 0 and nothing was unpinned), `FetchPage(5)` returns null,
and `FetchPageRead(5)` / `FetchPageWrite(5)` dereference that null result when
taking the latch instead of returning a failed guard. -/
theorem C10_fetch_guard_null_deref :
    ∃ b : BPM,
      (BPM.new 1 2).newPage = .ok (some (0, 0), b) ∧
      b.fetchPage 5 = .ok (none, b) ∧
      b.fetchPageRead 5 = .error .nullDeref ∧
      b.fetchPageWrite 5 = .error .nullDeref := ⟨_, rfl, rfl, rfl, rfl⟩

/-- C6 (counterexample): in the queue `[ungranted (T1, S), ungranted (T2, S)]`
the request of T2 is batch-grantable with the first ungranted request (S is
compatible with S and there are no granted holders), so the claim's condition
holds — but `GrantLock` returns `false`, because it only accepts the request
whose transaction id matches the first ungranted request. -/
theorem C6_grantLock_not_as_claimed :
    grantLock ⟨2, .shared, false⟩ [⟨1, .shared, false⟩, ⟨2, .shared, false⟩] = false ∧
    grantLockClaimed ⟨2, .shared, false⟩ [⟨1, .shared, false⟩, ⟨2, .shared, false⟩] = true ∧
    areLocksCompatible .shared .shared = true := by decide

/-- C7 (counterexample): when another transaction is recorded as the queue's
upgrader, a transition outside the upgrade lattice (here S → IS for T1, with
`upgrading_ = 2`) aborts with UPGRADE_CONFLICT, not INCOMPATIBLE_UPGRADE: the
upgrader check precedes the lattice check. -/
theorem C7_upgrade_conflict_precedes_incompatible :
    lockTableUpgrade 1 .intentionShared [⟨1, .shared, true⟩] 2 =
      .aborted .upgradeConflict ∧
    canLockUpgrade .shared .intentionShared = false ∧
    AbortReason.upgradeConflict ≠ AbortReason.incompatibleUpgrade := by decide

/-- C6 (amended): `GrantLock` returns `true` exactly when every granted
request in the queue is compatible with the request's mode and the first
ungranted request (if any) carries the request's transaction id — plain FIFO
with no batching disjunct in the function itself. -/
theorem C6_grantLock_iff_fifo_head (r : LockRequest) (q : List LockRequest) :
    grantLock r q = true ↔
      ((∀ x ∈ q, x.granted = true → areLocksCompatible x.mode r.mode = true) ∧
       ∀ u, q.find? (fun x => ¬ x.granted) = some u → u.txnId = r.txnId) := by
  unfold grantLock
  split
  case isTrue h =>
    rw [List.all_eq_true] at h
    constructor
    · intro hm
      refine ⟨fun x hx hg => ?_, fun u hu => ?_⟩
      · have hx2 := h x hx
        rw [decide_eq_true_eq] at hx2
        rcases hx2 with hng | hc
        · exact absurd hg (by simpa using hng)
        · exact hc
      · rw [hu] at hm
        simpa using hm
    · rintro ⟨_, h2⟩
      cases hf : q.find? (fun x => ¬ x.granted) with
      | none => simp [hf]
      | some u => simp [hf, h2 u hf]
  case isFalse h =>
    rw [List.all_eq_true] at h
    push_neg at h
    obtain ⟨x, hx, hxp⟩ := h
    simp only [ne_eq, decide_eq_true_eq] at hxp
    push_neg at hxp
    constructor
    · intro hfalse; cases hfalse
    · rintro ⟨h1, _⟩
      exact absurd (h1 x hx (by simpa using hxp.1)) (by simpa using hxp.2)

/-- Every element of the prefix of a list before the first index satisfying
`p` fails `p`. -/
theorem mem_take_findIdx_not {α : Type} (p : α → Bool) (l : List α) :
    ∀ x ∈ l.take (l.findIdx p), p x = false := by
  induction l with
  | nil => simp
  | cons a t ih =>
    by_cases h : p a
    · simp [List.findIdx_cons, h]
    · intro x hx
      rw [List.findIdx_cons] at hx
      simp only [h, cond_false, List.take_succ_cons, List.mem_cons] at hx
      rcases hx with rfl | hx
      · simpa using h
      · exact ih x hx

/-- C7 (amended, assuming no other transaction is the queue's upgrader): the
upgrade is permitted exactly along the lattice IS → {S, X, IX, SIX},
S → {X, SIX}, IX → {X, SIX}, SIX → {X}; a transition outside it aborts with
INCOMPATIBLE_UPGRADE; a permitted one drops the old request, inserts the new
ungranted request at the front of the ungranted suffix (every request before
it is granted, and removing it restores the queue minus the old request) and
records the transaction as the queue's upgrader. -/
theorem C7_upgrade_lattice_and_requeue (q : List LockRequest) (txnId : Int)
    (mode : LockMode) (r : LockRequest)
    (hfind : q.find? (fun x => x.txnId = txnId) = some r)
    (hgranted : r.granted = true)
    (hne : ¬ r.mode = mode) :
    (canLockUpgrade r.mode mode = true ↔
      (r.mode, mode) ∈ ([(.intentionShared, .shared), (.intentionShared, .exclusive),
        (.intentionShared, .intentionExclusive),
        (.intentionShared, .sharedIntentionExclusive),
        (.shared, .exclusive), (.shared, .sharedIntentionExclusive),
        (.intentionExclusive, .exclusive),
        (.intentionExclusive, .sharedIntentionExclusive),
        (.sharedIntentionExclusive, .exclusive)] : List (LockMode × LockMode))) ∧
    (canLockUpgrade r.mode mode = false →
      lockTableUpgrade txnId mode q INVALID_TXN_ID = .aborted .incompatibleUpgrade) ∧
    (canLockUpgrade r.mode mode = true →
      ∃ a b : List LockRequest,
        lockTableUpgrade txnId mode q INVALID_TXN_ID =
          .reserved (a ++ { txnId := txnId, mode := mode, granted := false } :: b) txnId ∧
        (∀ x ∈ a, x.granted = true) ∧
        a ++ b = q.eraseP (fun x => x.txnId = txnId)) := by
  refine ⟨?_, ?_, ?_⟩
  · cases hm : r.mode <;> cases hm2 : mode <;> decide
  · intro hcan
    simp [lockTableUpgrade, hfind, hne, hcan]
  · intro hcan
    set q1 := q.eraseP (fun x => x.txnId = txnId) with hq1
    refine ⟨q1.take (q1.findIdx (fun x => ¬ x.granted)),
            q1.drop (q1.findIdx (fun x => ¬ x.granted)), ?_, ?_, List.take_append_drop _ _⟩
    · simp [lockTableUpgrade, hfind, hne, hcan, hq1]
    · intro x hx
      have hnot := mem_take_findIdx_not (fun x => ¬ x.granted) q1 x hx
      simpa using hnot

/-- Witness for C7: transaction 5 holds a granted IS lock in a queue with a
granted S holder and a waiting X request, and upgrades to X. -/
theorem C7_upgrade_lattice_and_requeue_witness :
    (canLockUpgrade LockMode.intentionShared LockMode.exclusive = true ↔
      (LockMode.intentionShared, LockMode.exclusive) ∈
        ([(.intentionShared, .shared), (.intentionShared, .exclusive),
          (.intentionShared, .intentionExclusive),
          (.intentionShared, .sharedIntentionExclusive),
          (.shared, .exclusive), (.shared, .sharedIntentionExclusive),
          (.intentionExclusive, .exclusive),
          (.intentionExclusive, .sharedIntentionExclusive),
          (.sharedIntentionExclusive, .exclusive)] : List (LockMode × LockMode))) ∧
    (canLockUpgrade LockMode.intentionShared LockMode.exclusive = false →
      lockTableUpgrade 5 .exclusive
        [⟨5, .intentionShared, true⟩, ⟨9, .shared, true⟩, ⟨7, .exclusive, false⟩]
        INVALID_TXN_ID = .aborted .incompatibleUpgrade) ∧
    (canLockUpgrade LockMode.intentionShared LockMode.exclusive = true →
      ∃ a b : List LockRequest,
        lockTableUpgrade 5 .exclusive
          [⟨5, .intentionShared, true⟩, ⟨9, .shared, true⟩, ⟨7, .exclusive, false⟩]
          INVALID_TXN_ID =
          .reserved (a ++ { txnId := 5, mode := .exclusive, granted := false } :: b) 5 ∧
        (∀ x ∈ a, x.granted = true) ∧
        a ++ b = List.eraseP (fun x => x.txnId = 5)
          [⟨5, .intentionShared, true⟩, ⟨9, .shared, true⟩, ⟨7, .exclusive, false⟩]) :=
  C7_upgrade_lattice_and_requeue
    [⟨5, .intentionShared, true⟩, ⟨9, .shared, true⟩, ⟨7, .exclusive, false⟩] 5
    .exclusive ⟨5, .intentionShared, true⟩ (by decide) rfl (by decide)

/-- C9: when every stored key of a non-empty leaf is strictly below the
searched key, the lower-bound index equals the page's size, and both
`GetValue` and `Remove` then compare the cell at that index — one slot past
the logical contents — so their outcome is exactly a function of that
out-of-bounds cell, with no bounds check. -/
theorem C9_lookup_reads_cell_past_end (p : LeafPage) (k : Int) (h0 : 0 < p.size)
    (hlt : ∀ i < p.size, (p.cells i).1 < k) :
    lowerBoundIdx p.cells p.size k = p.size ∧
    p.getValue k =
      (if (p.cells p.size).1 = k then (true, [(p.cells p.size).2]) else (false, [])) ∧
    p.remove k =
      (if (p.cells p.size).1 = k then
        .ok (true, { p with cells := eraseShift leafZero p.cells p.size p.size,
                            size := p.size - 1 })
      else .ok (false, p)) := by
  have hlb : lowerBoundIdx p.cells p.size k = p.size := by
    unfold lowerBoundIdx
    rw [List.find?_eq_none.mpr]
    · rfl
    · intro i hi
      simp only [List.mem_range] at hi
      simpa using not_le.mpr (hlt i hi)
  have hsz : ¬ p.size = 0 := by omega
  refine ⟨hlb, ?_, ?_⟩
  · by_cases hj : (p.cells p.size).1 = k
    · simp [LeafPage.getValue, hlb, hj, hsz]
    · simp [LeafPage.getValue, hlb, hj, hsz]
  · by_cases hj : (p.cells p.size).1 = k
    · simp [LeafPage.remove, hlb, hj, hsz]
    · simp [LeafPage.remove, hlb, hj, hsz]

/-- A concrete leaf for the C9 witness: one entry `(3, 30)`, and the cell just
past the logical end still holds `(5, 50)` — left there by an earlier shift. -/
def c9page : LeafPage :=
  { cells := fun j => if j = 0 then (3, 30) else if j = 1 then (5, 50) else (0, 0),
    size := 1, maxSize := 3, nextPageId := -1 }

/-- Witness for C9: searching key 5 in `c9page` (whose only stored key is 3)
reads the cell past the end; because it happens to hold key 5, `GetValue`
returns a false positive `(true, [50])`. -/
theorem C9_lookup_reads_cell_past_end_witness :
    0 < c9page.size ∧ (∀ i < c9page.size, (c9page.cells i).1 < 5) ∧
    (lowerBoundIdx c9page.cells c9page.size 5 = c9page.size ∧
     c9page.getValue 5 =
       (if (c9page.cells c9page.size).1 = 5 then
         (true, [(c9page.cells c9page.size).2]) else (false, [])) ∧
     c9page.remove 5 =
       (if (c9page.cells c9page.size).1 = 5 then
         .ok (true, { c9page with
                        cells := eraseShift leafZero c9page.cells c9page.size c9page.size,
                        size := c9page.size - 1 })
       else .ok (false, c9page))) ∧
    c9page.getValue 5 = (true, [50]) :=
  ⟨by decide, by decide, C9_lookup_reads_cell_past_end c9page 5 (by decide) (by decide),
   by decide⟩

/-- Lower-bound check against an optional bound. -/
def boundOkLo : Option Int → Int → Bool
  | none, _ => true
  | some a, k => a ≤ k

/-- Upper-bound check (strict) against an optional bound. -/
def boundOkHi : Option Int → Int → Bool
  | none, _ => true
  | some b, k => k < b

/-- Structural well-formedness of the subtree rooted at `pid`, with key bounds:
leaves are non-empty, within max size, strictly sorted and inside the bounds;
internal pages have 2 ≤ size ≤ max, a strictly increasing key array (the
entry-0 key included, since GetChild and Insert read it), and children
well-formed within the separator ranges. -/
def wfSub (pages : Int → Option Page) : Nat → Int → Option Int → Option Int → Bool
  | 0, _, _, _ => false
  | fuel + 1, pid, lo, hi =>
    match pages pid with
    | none => false
    | some (.leaf p) =>
      decide (1 ≤ p.size) && decide (p.size ≤ p.maxSize) &&
      (List.range (p.size - 1)).all (fun i => decide ((p.cells i).1 < (p.cells (i + 1)).1)) &&
      (List.range p.size).all (fun i =>
        boundOkLo lo (p.cells i).1 && boundOkHi hi (p.cells i).1)
    | some (.internal p) =>
      decide (2 ≤ p.size) && decide (p.size ≤ p.maxSize) &&
      (List.range (p.size - 1)).all (fun i => decide ((p.cells i).1 < (p.cells (i + 1)).1)) &&
      boundOkLo lo (p.cells 0).1 &&
      boundOkHi hi (p.cells (p.size - 1)).1 &&
      (List.range p.size).all (fun i =>
        wfSub pages fuel (p.cells i).2 (some (p.cells i).1)
          (if i + 1 < p.size then some (p.cells (i + 1)).1 else hi))

/-- The keys stored in the subtree rooted at `pid`. -/
def subtreeKeys (pages : Int → Option Page) : Nat → Int → List Int
  | 0, _ => []
  | fuel + 1, pid =>
    match pages pid with
    | none => []
    | some (.leaf p) => (List.range p.size).map (fun i => (p.cells i).1)
    | some (.internal p) =>
      (List.range p.size).bind (fun i => subtreeKeys pages fuel (p.cells i).2)

theorem find_range_none (n : Nat) (p : Nat → Bool) (h : ∀ i < n, p i = false) :
    (List.range n).find? p = none := by
  rw [List.find?_eq_none]
  intro i hi
  rw [List.mem_range] at hi
  simp [h i hi]

theorem find_range_some (n : Nat) (p : Nat → Bool) (m : Nat) (hm : m < n)
    (hpm : p m = true) (hlt : ∀ i < m, p i = false) :
    (List.range n).find? p = some m := by
  induction n with
  | zero => omega
  | succ n ih =>
    rw [List.range_succ, List.find?_append]
    rcases Nat.lt_or_ge m n with h | h
    · rw [ih h]
      rfl
    · have hmn : m = n := by omega
      rw [find_range_none n p (fun i hi => hlt i (by omega))]
      simp only [Option.none_orElse, List.find?_cons, List.find?_nil]
      rw [← hmn, hpm]
      rfl


/-- Adjacent-pair sortedness gives full monotonicity. -/
theorem sorted_of_pairwise {α : Type} {cells : Nat → Int × α} {n : Nat}
    (h : ∀ i, i + 1 < n → (cells i).1 < (cells (i + 1)).1) :
    ∀ i j, i < j → j < n → (cells i).1 < (cells j).1 := by
  have key : ∀ d i, i + d + 1 < n → (cells i).1 < (cells (i + d + 1)).1 := by
    intro d
    induction d with
    | zero => intro i hi; simpa using h i (by omega)
    | succ d ih =>
      intro i hi
      have h1 := ih i (by omega)
      have h2 := h (i + d + 1) (by omega)
      have he : i + (d + 1) + 1 = (i + d + 1) + 1 := by omega
      rw [he]
      exact lt_trans h1 h2
  intro i j hij hjn
  have he : j = i + (j - i - 1) + 1 := by omega
  rw [he]
  exact key (j - i - 1) i (by omega)

/-- Keys of a well-formed subtree respect its bounds. -/
theorem subtreeKeys_bounds (pages : Int → Option Page) :
    ∀ fuel pid lo hi, wfSub pages fuel pid lo hi = true →
      ∀ x ∈ subtreeKeys pages fuel pid, boundOkLo lo x = true ∧ boundOkHi hi x = true := by
  intro fuel
  induction fuel with
  | zero => intro pid lo hi h; simp [wfSub] at h
  | succ fuel ih =>
    intro pid lo hi h x hx
    rw [wfSub] at h
    rw [subtreeKeys] at hx
    match hpg : pages pid with
    | none => rw [hpg] at h; cases h
    | some (.leaf p) =>
      rw [hpg] at h hx
      simp only [Bool.and_eq_true, List.all_eq_true, List.mem_range,
        decide_eq_true_eq] at h
      obtain ⟨⟨⟨h1, h2⟩, h3⟩, hbnd⟩ := h
      simp only [List.mem_map, List.mem_range] at hx
      obtain ⟨i, hi, rfl⟩ := hx
      exact hbnd i hi
    | some (.internal p) =>
      rw [hpg] at h hx
      simp only [Bool.and_eq_true, List.all_eq_true, List.mem_range,
        decide_eq_true_eq] at h
      obtain ⟨⟨⟨⟨⟨hs2, hsmax⟩, hchain⟩, hlo0⟩, hhiN⟩, hkids⟩ := h
      simp only [List.mem_bind, List.mem_range] at hx
      obtain ⟨i, hilt, hxk⟩ := hx
      have hwfc := hkids i hilt
      have hbx := ih ((p.cells i).2) (some (p.cells i).1)
        (if i + 1 < p.size then some (p.cells (i + 1)).1 else hi) hwfc x hxk
      have hchain2 : ∀ a, a + 1 < p.size → (p.cells a).1 < (p.cells (a + 1)).1 := by
        intro a ha
        exact hchain a (by omega)
      constructor
      · have hkix : (p.cells i).1 ≤ x := by
          simpa [boundOkLo] using hbx.1
        cases lo with
        | none => rfl
        | some a =>
          have h0i : (p.cells 0).1 ≤ (p.cells i).1 := by
            rcases Nat.eq_zero_or_pos i with rfl | hpos
            · exact le_refl _
            · exact le_of_lt (sorted_of_pairwise hchain2 0 i hpos hilt)
          have hA : a ≤ (p.cells 0).1 := by simpa [boundOkLo] using hlo0
          simp only [boundOkLo, decide_eq_true_eq]
          omega
      · by_cases hin : i + 1 < p.size
        · have hxlt : x < (p.cells (i + 1)).1 := by
            have h4 := hbx.2
            rw [if_pos hin] at h4
            simpa [boundOkHi] using h4
          cases hi2 : hi with
          | none => rfl
          | some b =>
            have hle : (p.cells (i + 1)).1 ≤ (p.cells (p.size - 1)).1 := by
              rcases Nat.lt_or_ge (i + 1) (p.size - 1) with h3 | h3
              · exact le_of_lt (sorted_of_pairwise hchain2 (i + 1) (p.size - 1) h3 (by omega))
              · have he : i + 1 = p.size - 1 := by omega
                rw [he]
            have hB : (p.cells (p.size - 1)).1 < b := by
              rw [hi2] at hhiN
              simpa [boundOkHi] using hhiN
            simp only [boundOkHi, decide_eq_true_eq]
            omega
        · have h4 := hbx.2
          rw [if_neg hin] at h4
          exact h4


/-- Routing: in an internal page with strictly increasing keys, `GetChild`
returns the child at the unique slot whose key range contains `k`, and its
`BUSTUB_ENSURE` passes. -/
theorem getChild_routes (p : InternalPage) (k : Int) (j : Nat)
    (hs2 : 2 ≤ p.size)
    (hchain : ∀ a, a + 1 < p.size → (p.cells a).1 < (p.cells (a + 1)).1)
    (hj : j < p.size)
    (hlo : (p.cells j).1 ≤ k)
    (hhi : j + 1 < p.size → k < (p.cells (j + 1)).1) :
    p.getChild k = .ok (p.cells j).2 := by
  have hub : upperBoundFrom1 p.cells p.size k = j + 1 := by
    unfold upperBoundFrom1
    have hfalse : ∀ i < j + 1,
        (decide (1 ≤ i ∧ k < (p.cells i).1)) = false := by
      intro i hi
      rcases Nat.eq_zero_or_pos i with rfl | hpos
      · simp
      · have hik : (p.cells i).1 ≤ (p.cells j).1 := by
          rcases Nat.lt_or_ge i j with h2 | h2
          · exact le_of_lt (sorted_of_pairwise hchain i j h2 hj)
          · have he : i = j := by omega
            rw [he]
        simp only [decide_eq_false_iff_not, not_and, not_lt]
        intro _
        omega
    by_cases hjs : j + 1 < p.size
    · rw [find_range_some p.size _ (j + 1) hjs (by simp [hhi hjs]) hfalse]
      rfl
    · rw [find_range_none p.size _ (fun i hi => hfalse i (by omega))]
      simp only [Option.getD_none]
      omega
  unfold InternalPage.getChild
  rw [if_neg (by omega), hub]
  have he : j + 1 - 1 = j := by omega
  show (if ¬ (p.cells (j + 1 - 1)).1 ≤ k then Except.error Crash.ensureFail
        else Except.ok (p.cells (j + 1 - 1)).2) = Except.ok (p.cells j).2
  rw [he, if_neg (by simpa using hlo)]

/-- On a sorted leaf whose window `[size - fuel, size)` contains the key, the
duplicate scan returns `true` without tripping the sortedness assert. -/
theorem leafDupScan_true (p : LeafPage) (k : Int)
    (hsorted : ∀ a, a + 1 < p.size → (p.cells a).1 < (p.cells (a + 1)).1) :
    ∀ fuel, fuel ≤ p.size →
      (∃ i, p.size - fuel ≤ i ∧ i < p.size ∧ (p.cells i).1 = k) →
      leafDupScan p k fuel = .ok true := by
  intro fuel
  induction fuel with
  | zero =>
    rintro _ ⟨i, h1, h2, _⟩
    omega
  | succ fuel ih =>
    rintro hle ⟨i, h1, h2, h3⟩
    rw [leafDupScan]
    rw [if_neg (by
      push_neg
      intro hlt
      exact hsorted _ hlt)]
    by_cases he : (p.cells (p.size - (fuel + 1))).1 = k
    · rw [if_pos he]
    · rw [if_neg he]
      apply ih (by omega)
      refine ⟨i, ?_, h2, h3⟩
      rcases Nat.eq_or_lt_of_le h1 with he2 | he2
      · exfalso; rw [← he2] at h3; exact he h3
      · omega

/-- Inserting a key already present in a sorted leaf returns `false` and the
page unchanged. -/
theorem leafInsert_dup (p : LeafPage) (k : Int) (v : Nat)
    (hsize : p.size ≤ p.maxSize)
    (hsorted : ∀ a, a + 1 < p.size → (p.cells a).1 < (p.cells (a + 1)).1)
    (hk : ∃ i, i < p.size ∧ (p.cells i).1 = k) :
    p.insert k v = .ok (false, p) := by
  obtain ⟨i, hi, hik⟩ := hk
  unfold LeafPage.insert
  rw [if_neg (by omega)]
  rw [leafDupScan_true p k hsorted p.size (le_refl _) ⟨i, by omega, hi, hik⟩]
  rfl


/-- Outstanding write-latch acquisitions: the retained write set plus the
header guard. -/
def outstandingW (ws : List Int) (hh : Bool) (pid : Int) : Nat :=
  ws.count pid + (if hh ∧ pid = 0 then 1 else 0)

/-- Trace accounting: read events are balanced, and write acquisitions exceed
releases by exactly the outstanding guards. -/
def latchInv (tr : List LatchEvent) (ws : List Int) (hh : Bool) : Prop :=
  ∀ pid : Int,
    tr.count (.acqR pid) = tr.count (.relR pid) ∧
    tr.count (.acqW pid) = tr.count (.relW pid) + outstandingW ws hh pid

theorem count_map_relW (ws : List Int) (q : Int) :
    (ws.map LatchEvent.relW).count (.relW q) = ws.count q := by
  induction ws with
  | nil => rfl
  | cons a t ih =>
    simp only [List.map_cons, List.count_cons, ih]
    by_cases h : a = q <;> simp [h]

theorem count_map_relW_other (ws : List Int) (e : LatchEvent)
    (h : ∀ q, ¬ e = .relW q) : (ws.map LatchEvent.relW).count e = 0 := by
  rw [List.count_eq_zero]
  intro hmem
  obtain ⟨a, _, ha⟩ := List.mem_map.mp hmem
  exact h a ha.symm

theorem count_releaseAll (ws : List Int) (hh : Bool) (q : Int) :
    (releaseAll ws hh).count (.relW q) = outstandingW ws hh q ∧
    (releaseAll ws hh).count (.acqW q) = 0 ∧
    (releaseAll ws hh).count (.acqR q) = 0 ∧
    (releaseAll ws hh).count (.relR q) = 0 := by
  have hz1 := count_map_relW_other ws (.acqW q) (fun a h => by cases h)
  have hz2 := count_map_relW_other ws (.acqR q) (fun a h => by cases h)
  have hz3 := count_map_relW_other ws (.relR q) (fun a h => by cases h)
  unfold releaseAll outstandingW
  cases hh with
  | false => simp [count_map_relW, hz1, hz2, hz3]
  | true =>
    simp only [List.count_append, count_map_relW, hz1, hz2, hz3, true_and,
      if_true, Nat.add_zero, Nat.zero_add]
    by_cases hq : q = 0
    · subst hq; simp
    · have hne : ¬ (LatchEvent.relW 0 = LatchEvent.relW q) := by
        intro hc; injection hc with h0; exact hq h0.symm
      simp [List.count_singleton, hne, hq]

/-- Acquiring a write latch and pushing it onto the write set preserves the
invariant. -/
theorem latchInv_acq (tr : List LatchEvent) (ws : List Int) (hh : Bool) (pid : Int)
    (h : latchInv tr ws hh) :
    latchInv (tr ++ [.acqW pid]) (ws ++ [pid]) hh := by
  intro q
  obtain ⟨h1, h2⟩ := h q
  rw [outstandingW] at h2
  have hz1 : (List.count (LatchEvent.acqR q) [LatchEvent.acqW pid]) = 0 := by
    simp [List.count_singleton]
  have hz2 : (List.count (LatchEvent.relR q) [LatchEvent.acqW pid]) = 0 := by
    simp [List.count_singleton]
  have hz3 : (List.count (LatchEvent.relW q) [LatchEvent.acqW pid]) = 0 := by
    simp [List.count_singleton]
  constructor
  · simp only [List.count_append, hz1, hz2]
    omega
  · simp only [List.count_append, hz3, outstandingW]
    by_cases hq : pid = q
    · subst hq
      simp only [List.count_singleton]
      simp
      omega
    · have hne : ¬ (LatchEvent.acqW q = LatchEvent.acqW pid) := by
        intro hc; injection hc with h0; exact hq h0.symm
      have hcnt : (List.count (LatchEvent.acqW q) [LatchEvent.acqW pid]) = 0 := by
        simp [List.count_singleton, hne]
      have hcnt3 : List.count q [pid] = 0 := by
        simp only [List.count_singleton]
        simp
        intro hc
        exact hq hc
      rw [hcnt, hcnt3]
      omega

/-- Acquire a latch, then release the previously held set: the combined trace
leaves exactly the new latch outstanding. -/
theorem latchInv_acq_release (tr : List LatchEvent) (ws : List Int) (hh : Bool)
    (pid : Int) (h : latchInv tr ws hh) :
    latchInv ((tr ++ [.acqW pid]) ++ releaseAll ws hh) [pid] false := by
  intro q
  obtain ⟨h1, h2⟩ := h q
  obtain ⟨c1, c2, c3, c4⟩ := count_releaseAll ws hh q
  rw [outstandingW] at h2
  have hzr1 : (List.count (LatchEvent.acqR q) [LatchEvent.acqW pid]) = 0 := by simp
  have hzr2 : (List.count (LatchEvent.relR q) [LatchEvent.acqW pid]) = 0 := by simp
  have hzr3 : (List.count (LatchEvent.relW q) [LatchEvent.acqW pid]) = 0 := by simp
  constructor
  · simp only [List.count_append, c3, c4, hzr1, hzr2]
    omega
  · simp only [List.count_append, c1, c2, hzr3, outstandingW]
    simp only [outstandingW] at c1
    by_cases hq : pid = q
    · subst hq
      have e1 : (List.count (LatchEvent.acqW pid) [LatchEvent.acqW pid]) = 1 := by simp
      have e2 : List.count pid [pid] = 1 := by simp
      rw [e1, e2]
      simp
      omega
    · have hne : ¬ (LatchEvent.acqW q = LatchEvent.acqW pid) := by
        intro hc; injection hc with h0; exact hq h0.symm
      have e1 : (List.count (LatchEvent.acqW q) [LatchEvent.acqW pid]) = 0 := by
        rw [List.count_eq_zero]
        simp
        exact fun hc => hq hc.symm
      have e2 : List.count q [pid] = 0 := by
        rw [List.count_eq_zero]
        simp
        exact fun hc => hq hc.symm
      rw [e1, e2]
      simp
      omega

/-- The write traversal preserves the latch-trace invariant. -/
theorem traverseW_latchInv (t : TreeState) (k : Int) (op : OperationType) :
    ∀ fuel pid ws hh tr ws1 hh1 tr1,
      traverseW t k op fuel pid ws hh tr = .ok (ws1, hh1, tr1) →
      latchInv tr ws hh → latchInv tr1 ws1 hh1 := by
  intro fuel
  induction fuel with
  | zero =>
    intro pid ws hh tr ws1 hh1 tr1 h
    rw [traverseW] at h
    cases h
  | succ fuel ih =>
    intro pid ws hh tr ws1 hh1 tr1 h hinv
    rw [traverseW] at h
    match hpg : t.pages pid with
    | none =>
      rw [show t.fetch pid = Except.error .nullDeref by simp [TreeState.fetch, hpg]] at h
      cases h
    | some (.leaf p) =>
      rw [show t.fetch pid = Except.ok (Page.leaf p) by simp [TreeState.fetch, hpg]] at h
      simp only [bind, Except.bind] at h
      by_cases hsafe : (Page.leaf p).isSafe op = true
      · simp only [hsafe, if_true] at h
        simp only [Except.ok.injEq, Prod.mk.injEq] at h
        obtain ⟨hws, hhh, htr⟩ := h
        subst hws; subst hhh; subst htr
        simpa using latchInv_acq_release tr ws hh pid hinv
      · simp only [hsafe, if_false] at h
        simp only [Except.ok.injEq, Prod.mk.injEq] at h
        obtain ⟨hws, hhh, htr⟩ := h
        subst hws; subst hhh; subst htr
        exact latchInv_acq tr ws hh pid hinv
    | some (.internal ip) =>
      rw [show t.fetch pid = Except.ok (Page.internal ip) by simp [TreeState.fetch, hpg]] at h
      simp only [bind, Except.bind] at h
      by_cases hs2 : 2 ≤ ip.size
      · by_cases hsafe : (Page.internal ip).isSafe op = true
        · simp only [hsafe, if_true, hs2, not_true_eq_false, if_false] at h
          match hgc : ip.getChild k with
          | .error e => rw [hgc] at h; cases h
          | .ok child =>
            rw [hgc] at h
            simp only [bind, Except.bind] at h
            exact ih child ([] ++ [pid]) false _ ws1 hh1 tr1 h
              (by simpa using latchInv_acq_release tr ws hh pid hinv)
        · simp only [hsafe, if_false] at h
          rw [if_neg (by simpa using hs2)] at h
          match hgc : ip.getChild k with
          | .error e => rw [hgc] at h; cases h
          | .ok child =>
            rw [hgc] at h
            simp only [bind, Except.bind] at h
            exact ih child (ws ++ [pid]) hh _ ws1 hh1 tr1 h
              (latchInv_acq tr ws hh pid hinv)
      · by_cases hsafe : (Page.internal ip).isSafe op = true
        · simp only [hsafe, if_true] at h
          rw [if_pos (by simpa using hs2)] at h
          cases h
        · simp only [hsafe, if_false] at h
          rw [if_pos (by simpa using hs2)] at h
          cases h


/-- On a well-formed subtree containing `k`, the write descent succeeds and
ends at a leaf that stores `k`; the leaf is sorted and within max size. -/
theorem traverseW_reaches_dup_leaf (t : TreeState) (k : Int) (op : OperationType) :
    ∀ fuel pid lo hi, wfSub t.pages fuel pid lo hi = true →
      k ∈ subtreeKeys t.pages fuel pid →
      ∀ ws hh tr, ∃ ws1 hh1 tr1 leafPid lf,
        traverseW t k op fuel pid ws hh tr = .ok (ws1 ++ [leafPid], hh1, tr1) ∧
        t.pages leafPid = some (.leaf lf) ∧
        (∃ i, i < lf.size ∧ (lf.cells i).1 = k) ∧
        lf.size ≤ lf.maxSize ∧
        (∀ a, a + 1 < lf.size → (lf.cells a).1 < (lf.cells (a + 1)).1) := by
  intro fuel
  induction fuel with
  | zero =>
    intro pid lo hi h
    rw [wfSub] at h
    cases h
  | succ fuel ih =>
    intro pid lo hi h hk ws hh tr
    rw [wfSub] at h
    rw [subtreeKeys] at hk
    match hpg : t.pages pid with
    | none => rw [hpg] at h; cases h
    | some (.leaf p) =>
      rw [hpg] at h hk
      simp only [Bool.and_eq_true, List.all_eq_true, List.mem_range,
        decide_eq_true_eq] at h
      obtain ⟨⟨⟨h1, h2⟩, h3⟩, _⟩ := h
      simp only [List.mem_map, List.mem_range] at hk
      obtain ⟨i, hi, hik⟩ := hk
      rw [traverseW]
      rw [show t.fetch pid = Except.ok (Page.leaf p) by simp [TreeState.fetch, hpg]]
      simp only [bind, Except.bind]
      have hsorted : ∀ a, a + 1 < p.size → (p.cells a).1 < (p.cells (a + 1)).1 :=
        fun a ha => h3 a (by omega)
      by_cases hsafe : (Page.leaf p).isSafe op = true
      · simp only [hsafe, if_true]
        exact ⟨[], false, _, pid, p, rfl, hpg, ⟨i, hi, hik⟩, h2, hsorted⟩
      · simp only [hsafe, if_false]
        exact ⟨ws, hh, _, pid, p, rfl, hpg, ⟨i, hi, hik⟩, h2, hsorted⟩
    | some (.internal ip) =>
      rw [hpg] at h hk
      simp only [Bool.and_eq_true, List.all_eq_true, List.mem_range,
        decide_eq_true_eq] at h
      obtain ⟨⟨⟨⟨⟨hs2, hsmax⟩, hchain⟩, hlo0⟩, hhiN⟩, hkids⟩ := h
      simp only [List.mem_bind, List.mem_range] at hk
      obtain ⟨j, hj, hkj⟩ := hk
      have hwfc := hkids j hj
      have hchain2 : ∀ a, a + 1 < ip.size → (ip.cells a).1 < (ip.cells (a + 1)).1 :=
        fun a ha => hchain a (by omega)
      have hbounds := subtreeKeys_bounds t.pages fuel ((ip.cells j).2) _ _ hwfc k hkj
      have hlo : (ip.cells j).1 ≤ k := by simpa [boundOkLo] using hbounds.1
      have hhi2 : j + 1 < ip.size → k < (ip.cells (j + 1)).1 := by
        intro hlt
        have hb := hbounds.2
        rw [if_pos hlt] at hb
        simpa [boundOkHi] using hb
      have hroute := getChild_routes ip k j hs2 hchain2 hj hlo hhi2
      rw [traverseW]
      rw [show t.fetch pid = Except.ok (Page.internal ip) by simp [TreeState.fetch, hpg]]
      simp only [bind, Except.bind]
      by_cases hsafe : (Page.internal ip).isSafe op = true
      · simp only [hsafe, if_true]
        rw [if_neg (by simpa using hs2), hroute]
        exact ih ((ip.cells j).2) (some (ip.cells j).1) _ hwfc hkj ([] ++ [pid]) false _
      · simp only [hsafe, if_false]
        rw [if_neg (by simpa using hs2), hroute]
        exact ih ((ip.cells j).2) (some (ip.cells j).1) _ hwfc hkj (ws ++ [pid]) hh _


/-- The initial trace of an insert: header acquired, nothing else. -/
theorem latchInv_start : latchInv [.acqW 0] [] true := by
  intro q
  constructor
  · simp
  · simp only [outstandingW, List.count_nil, Nat.zero_add]
    by_cases hq : q = 0
    · subst hq; simp
    · have e1 : (List.count (LatchEvent.acqW q) [LatchEvent.acqW 0]) = 0 := by
        rw [List.count_eq_zero]
        simp
        exact fun hc => hq hc
      have e2 : (List.count (LatchEvent.relW q) [LatchEvent.acqW 0]) = 0 := by simp
      rw [e1, e2]
      simp [hq]

/-- Releasing the header, the retained ancestors and the leaf guard balances
the trace left by the traversal. -/
theorem balanced_after_release (tr1 : List LatchEvent) (ws1 : List Int)
    (leafPid : Int) (hh1 : Bool)
    (h : latchInv tr1 (ws1 ++ [leafPid]) hh1) :
    balancedTrace (tr1 ++ (if hh1 then [.relW 0] else []) ++ ws1.map .relW ++
      [.relW leafPid]) := by
  intro q
  obtain ⟨h1, h2⟩ := h q
  rw [outstandingW, List.count_append] at h2
  have hz1 := count_map_relW_other ws1 (.acqR q) (fun a hc => by cases hc)
  have hz2 := count_map_relW_other ws1 (.relR q) (fun a hc => by cases hc)
  have hz3 := count_map_relW_other ws1 (.acqW q) (fun a hc => by cases hc)
  have hm := count_map_relW ws1 q
  constructor
  · simp only [List.count_append, hz1, hz2]
    cases hh1 <;> simp <;> omega
  · simp only [List.count_append, hz3, hm, count_map_relW]
    have hsing : List.count q [leafPid] =
        List.count (LatchEvent.relW q) [LatchEvent.relW leafPid] := by
      by_cases hq : q = leafPid
      · subst hq; simp
      · have e1 : List.count q [leafPid] = 0 := by
          rw [List.count_eq_zero]; simp; exact fun hc => hq hc
        have e2 : (List.count (LatchEvent.relW q) [LatchEvent.relW leafPid]) = 0 := by
          rw [List.count_eq_zero]; simp; exact fun hc => hq hc
        rw [e1, e2]
    have ha1 : (List.count (LatchEvent.acqW q) [LatchEvent.relW leafPid]) = 0 := by simp
    have hacq_ite :
        List.count (LatchEvent.acqW q) (if hh1 = true then [LatchEvent.relW 0] else []) = 0 := by
      cases hh1 <;> simp
    have hrel_ite :
        List.count (LatchEvent.relW q) (if hh1 = true then [LatchEvent.relW 0] else []) =
          (if hh1 = true ∧ q = 0 then 1 else 0) := by
      cases hh1 with
      | false => simp
      | true =>
        simp only [if_true, true_and]
        by_cases hq : q = 0
        · subst hq; simp
        · have e1 : (List.count (LatchEvent.relW q) [LatchEvent.relW 0]) = 0 := by
            rw [List.count_eq_zero]; simp; exact fun hc => hq hc
          rw [e1, if_neg hq]
    rw [ha1, hacq_ite, hrel_ite, ← hsing]
    omega


/-- C3 (amended): on any tree state satisfying the structural invariants
(`wfSub`: non-empty sorted leaves, internal pages with 2 ≤ size ≤ max and
strictly increasing keys — the dead entry-0 key, which GetChild reads,
included — and children within the separator ranges), inserting a key that is
already present returns `false`, leaves the state — page contents, sizes,
links, root id, allocation counter — exactly unchanged, and the latch trace is
balanced: every acquired latch is released. -/
theorem C3_duplicate_insert_no_change (t : TreeState) (k : Int) (v : Nat) (fuel : Nat)
    (hroot : ¬ t.rootId = INVALID_PAGE_ID)
    (hwf : wfSub t.pages fuel t.rootId none none = true)
    (hk : k ∈ subtreeKeys t.pages fuel t.rootId) :
    ∃ tr, insertOp t k v fuel = .ok (false, t, tr) ∧ balancedTrace tr := by
  obtain ⟨ws1, hh1, tr1, leafPid, lf, htrav, hpage, hmem, hmax, hsorted⟩ :=
    traverseW_reaches_dup_leaf t k .ins fuel t.rootId none none hwf hk [] true
      [.acqW 0]
  have hdup := leafInsert_dup lf k v hmax hsorted hmem
  have hinv1 := traverseW_latchInv t k .ins fuel t.rootId [] true [.acqW 0]
    (ws1 ++ [leafPid]) hh1 tr1 htrav latchInv_start
  refine ⟨tr1 ++ (if hh1 then [.relW 0] else []) ++ ws1.map .relW ++ [.relW leafPid],
    ?_, balanced_after_release tr1 ws1 leafPid hh1 hinv1⟩
  unfold insertOp
  rw [if_neg hroot, htrav]
  simp only [bind, Except.bind]
  rw [List.getLast?_concat, List.dropLast_concat]
  simp only [Option.getD_some]
  simp only [show t.fetch leafPid = Except.ok (Page.leaf lf) from by
    simp [TreeState.fetch, hpage], asLeaf, hdup]
  simp


set_option maxHeartbeats 2000000 in
/-- C3 (counterexample): on the tree built by inserting −1, −2, −3 (a
reachable state, every insert returning true), re-inserting the present key −3
does not return false leaving the tree unchanged — it crashes on the
`BUSTUB_ENSURE` in `GetChild` during the write descent, because the root's
keys are out of order. -/
theorem C3_duplicate_insert_crashes_on_corrupt_tree :
    ∃ t : TreeState,
      runInserts 64 (TreeState.empty 3 3) [(-1, 101), (-2, 102), (-3, 103)] =
        .ok ([true, true, true], t) ∧
      insertOp t (-3) 999 64 = .error .ensureFail := ⟨_, rfl, rfl⟩

def c3leafA : LeafPage :=
  { cells := fun j => if j = 0 then (1, 11) else if j = 1 then (2, 12) else (0, 0),
    size := 2, maxSize := 3, nextPageId := 2 }

def c3leafB : LeafPage :=
  { cells := fun j => if j = 0 then (5, 15) else (0, 0),
    size := 1, maxSize := 3, nextPageId := -1 }

def c3root : InternalPage :=
  { cells := fun j => if j = 0 then (0, 1) else if j = 1 then (5, 2) else (0, 0),
    size := 2, maxSize := 3 }

def c3tree : TreeState :=
  { pages := fun pid =>
      if pid = 1 then some (.leaf c3leafA)
      else if pid = 2 then some (.leaf c3leafB)
      else if pid = 3 then some (.internal c3root)
      else none,
    rootId := 3, nextPid := 4, leafMax := 3, internalMax := 3 }

/-- Witness for C3: a concrete two-leaf tree containing key 5; the duplicate
insert returns false, changes nothing and balances its latches. -/
theorem C3_duplicate_insert_no_change_witness :
    ¬ c3tree.rootId = INVALID_PAGE_ID ∧
    wfSub c3tree.pages 3 c3tree.rootId none none = true ∧
    5 ∈ subtreeKeys c3tree.pages 3 c3tree.rootId ∧
    (∃ tr, insertOp c3tree 5 77 3 = .ok (false, c3tree, tr) ∧ balancedTrace tr) :=
  ⟨by decide, by decide, by decide,
   C3_duplicate_insert_no_change c3tree 5 77 3 (by decide) (by decide) (by decide)⟩


end BusTub
